import Mathlib

/-!
Verification development for the async-usb-host stack.

The definitions below are a shallow embedding of the Rust sources:
`src/types.rs`, `src/errors.rs`, `src/device_addr.rs`, `src/descriptor/mod.rs`,
`src/pipe.rs` and `src/driver/hub.rs`.  Machine integers (`u8`, `u16`) are
modelled as `Nat`; the code never relies on wrap-around for the fields in
question (addresses are 7-bit plus a flag bit, ports are small).  Fallible
code is modelled with `Option`/`Except`; a Rust `panic!` is modelled as the
`none` of an `Option`.
-/

namespace UsbHost

/-! ### types.rs -/

/-- Embeds `types.rs::PortInfo`: a 7-bit parent address with the high bit as a
"valid" flag, plus the port number on the parent. -/
structure PortInfo where
  valid_parent_addr : Nat
  port_on_parent : Nat
deriving DecidableEq, Repr

/-- Embeds `PortInfo::invalid`. -/
def PortInfo.invalid : PortInfo := ⟨0, 0⟩

/-- Embeds `PortInfo::new`. -/
def PortInfo.new (valid_parent_addr port_on_parent : Nat) : PortInfo :=
  ⟨valid_parent_addr, port_on_parent⟩

/-- Embeds `PortInfo::is_empty`: the valid bit (0x80) is clear. -/
def PortInfo.is_empty (p : PortInfo) : Bool := p.valid_parent_addr &&& 0x80 == 0

/-- Embeds `PortInfo::parent_addr`. -/
def PortInfo.parent_addr (p : PortInfo) : Option Nat :=
  if p.is_empty then none else some (p.valid_parent_addr &&& 0x7F)

/-- Embeds `PortInfo::port`. -/
def PortInfo.port (p : PortInfo) : Nat := p.port_on_parent

/-- Embeds `types.rs::UsbSpeed`. -/
inductive UsbSpeed where
  | LowSpeed
  | FullSpeed
  | HighSpeed
deriving DecidableEq, Repr

/-- Embeds `UsbSpeed::is_classic`. -/
def UsbSpeed.is_classic : UsbSpeed → Bool
  | .LowSpeed => true
  | .FullSpeed => true
  | .HighSpeed => false

/-- Embeds `types.rs::DataTog`. -/
inductive DataTog where
  | DATA0
  | DATA1
deriving DecidableEq, Repr

/-- Embeds `DataTog::next` (the Rust method mutates in place; here it returns
the successor value). -/
def DataTog.next : DataTog → DataTog
  | .DATA0 => .DATA1
  | .DATA1 => .DATA0

/-- Embeds `types.rs::DevInfo`. -/
structure DevInfo where
  port : PortInfo
  transaction_translator : Option (Nat × Nat)
  speed : UsbSpeed
deriving DecidableEq, Repr

/-- Embeds `DevInfo::root_device`. -/
def DevInfo.root_device (speed : UsbSpeed) : DevInfo :=
  ⟨PortInfo.new 0x80 0, none, speed⟩

/-- Embeds `DevInfo::new` (`types.rs` lines 254-266): the stored parent
address gets the valid bit 0x80 or-ed in.  The Rust asserts
`(addr & 0x7F) != 0`; callers below are only considered with such addresses. -/
def DevInfo.new (addr port : Nat) (tt : Option (Nat × Nat)) (speed : UsbSpeed) : DevInfo :=
  ⟨PortInfo.new (0x80 ||| addr) port, tt, speed⟩

/-- Embeds `device_addr.rs::DeviceHandle`. -/
structure DeviceHandle where
  address : Nat
  max_packet_size : Nat
  parent : DevInfo
deriving DecidableEq, Repr

/-- Embeds `DeviceHandle::dev_info`. -/
def DeviceHandle.dev_info (h : DeviceHandle) : DevInfo := h.parent

/-! ### errors.rs -/

/-- Embeds `descriptor/mod.rs::ParsingError`. -/
inductive ParsingError where
  | IncompleteDeviceDescriptor (max_packet_size : Nat)
  | Incomplete
  | InvalidLength
  | UnknownType (length descriptor_type : Nat)
deriving DecidableEq, Repr

/-- Embeds `errors.rs::UsbHostError`. -/
inductive UsbHostError where
  | Unknown
  | NAK
  | NYET
  | WrongTog
  | STALL
  | UnexpectedPID
  | BufferOverflow
  | ParsingError (e : ParsingError)
  | TransferTimeout
  | InvalidState
  | InvalidResponse
  | UnexpectedDevice
  | HubCapacity
  | Detached
deriving DecidableEq, Repr

/-! ### device_addr.rs

`DeviceDisconnectMask` is a 128-bit bitmap of addresses; it is modelled as a
`Finset Nat` (the set of set bits).  `DeviceAddressManager<NR_DEVICES>` holds
a fixed array of `NR_DEVICES` `PortInfo` slots; it is modelled as a list, the
length of the list playing the role of `NR_DEVICES`. -/

/-- Embeds `device_addr.rs::DeviceAddressManager`. -/
structure DeviceAddressManager where
  info : List PortInfo
deriving DecidableEq, Repr

/-- Embeds `DeviceAddressManager::new` with `NR_DEVICES = n`: all slots
invalid. -/
def DeviceAddressManager.new (n : Nat) : DeviceAddressManager :=
  ⟨List.replicate n PortInfo.invalid⟩

/-- Embeds `DeviceAddressManager::alloc_device_address`: scan for the first
empty slot, record the parent port there, hand out address `slot + 1`.  The
`panic!("No address available")` on a full table is modelled as `none`. -/
def DeviceAddressManager.alloc_device_address (m : DeviceAddressManager)
    (max_packet_size : Nat) (parent : DevInfo) :
    Option (DeviceHandle × DeviceAddressManager) :=
  match m.info.findIdx? (fun p => p.is_empty) with
  | some i => some (⟨i + 1, max_packet_size, parent⟩, ⟨m.info.set i parent.port⟩)
  | none => none

/-- Embeds `DeviceAddressManager::free_address`. -/
def DeviceAddressManager.free_address (m : DeviceAddressManager)
    (device_handle : DeviceHandle) : DeviceAddressManager :=
  ⟨m.info.set (device_handle.address - 1) PortInfo.invalid⟩

/-- Embeds `DeviceAddressManager::free_all_addresses`. -/
def DeviceAddressManager.free_all_addresses (m : DeviceAddressManager) :
    Finset Nat × DeviceAddressManager :=
  (List.range m.info.length).foldl
    (fun acc i =>
      if !(acc.2.info.getD i PortInfo.invalid).is_empty then
        (insert (i + 1) acc.1, ⟨acc.2.info.set i PortInfo.invalid⟩)
      else acc)
    (∅, m)

/-- Embeds `DeviceAddressManager::find_index`: first slot equal to the given
`PortInfo` (note: compares against every slot, empty ones included). -/
def DeviceAddressManager.find_index (m : DeviceAddressManager)
    (dev_info : PortInfo) : Option Nat :=
  m.info.findIdx? (fun p => p == dev_info)

/-- Embeds the nested `fn find` of `free_subtree` (union-find find with path
compression).  The Rust recursion terminates because the parent array is a
forest; here that depth is supplied as explicit fuel (`free_subtree` passes
the table size, which suffices, see `ufFind_full` below). -/
def ufFind : Nat → List Nat → Nat → List Nat × Nat
  | 0, parent, x => (parent, x)
  | fuel + 1, parent, x =>
    let px := parent.getD x x
    if px ≠ x then
      let pr := ufFind fuel parent px
      (pr.1.set x pr.2, pr.2)
    else
      (parent, x)

/-- Embeds the nested `fn union` of `free_subtree` (union by rank). -/
def ufUnion (fuel : Nat) (parent rank : List Nat) (x y : Nat) :
    List Nat × List Nat :=
  let fx := ufFind fuel parent x
  let fy := ufFind fuel fx.1 y
  let x_root := fx.2
  let y_root := fy.2
  if x_root ≠ y_root then
    if rank.getD x_root 0 < rank.getD y_root 0 then
      (fy.1.set x_root y_root, rank)
    else if rank.getD y_root 0 < rank.getD x_root 0 then
      (fy.1.set y_root x_root, rank)
    else
      (fy.1.set y_root x_root, rank.set x_root (rank.getD x_root 0 + 1))
  else (fy.1, rank)

/-- Embeds the `free_subtree` loop that builds connected components: for every
live slot with a nonzero parent address, union the slot with its parent's
slot. -/
def buildComponents (info : List PortInfo) (fuel : Nat)
    (pr : List Nat × List Nat) (is : List Nat) : List Nat × List Nat :=
  is.foldl
    (fun pr i =>
      if !(info.getD i PortInfo.invalid).is_empty then
        match (info.getD i PortInfo.invalid).parent_addr with
        | some pa => if 0 < pa then ufUnion fuel pr.1 pr.2 i (pa - 1) else pr
        | none => pr
      else pr)
    pr

/-- Embeds the `free_subtree` loop that locates the root component: the first
live slot whose parent address is 0, with the (path-compressed) parent array
threaded through. -/
def rootComponentSearch (info : List PortInfo) (fuel : Nat) :
    List Nat → List Nat → Option Nat × List Nat
  | parent, [] => (none, parent)
  | parent, i :: rest =>
    if !(info.getD i PortInfo.invalid).is_empty &&
        ((info.getD i PortInfo.invalid).parent_addr == some 0) then
      let f := ufFind fuel parent i
      (some f.2, f.1)
    else rootComponentSearch info fuel parent rest

/-- Embeds the final `free_subtree` loop: every live slot whose find-root is
not the root component is invalidated and added to the mask. -/
def scanFree (fuel root : Nat) :
    List Nat → List PortInfo → Finset Nat → List Nat →
    List PortInfo × Finset Nat × List Nat
  | parent, info, mask, [] => (info, mask, parent)
  | parent, info, mask, i :: rest =>
    if !(info.getD i PortInfo.invalid).is_empty then
      let f := ufFind fuel parent i
      if f.2 ≠ root then
        scanFree fuel root f.1 (info.set i PortInfo.invalid) (insert (i + 1) mask) rest
      else
        scanFree fuel root f.1 info mask rest
    else scanFree fuel root parent info mask rest

/-- Embeds `DeviceAddressManager::free_subtree` (`device_addr.rs` lines
122-207): locate the slot stored for `dev_info`, invalidate it, build
union-find components over the surviving parent links, and invalidate every
live slot not connected to the root component. -/
def DeviceAddressManager.free_subtree (m : DeviceAddressManager)
    (dev_info : PortInfo) : Finset Nat × DeviceAddressManager :=
  let n := m.info.length
  match m.find_index dev_info with
  | none => (∅, m)
  | some idx =>
    let info1 := m.info.set idx PortInfo.invalid
    let mask1 : Finset Nat := {idx + 1}
    let built := buildComponents info1 n (List.range n, List.replicate n 0) (List.range n)
    let rc := rootComponentSearch info1 n built.1 (List.range n)
    match rc.1 with
    | some root =>
      let sf := scanFree n root rc.2 info1 mask1 (List.range n)
      (sf.2.1, ⟨sf.1⟩)
    | none => (mask1, ⟨info1⟩)

/-! ### List access helpers -/

lemma getD_set_self {α : Type} {l : List α} {i : Nat} (hi : i < l.length) (a d : α) :
    (l.set i a).getD i d = a := by
  simp [List.getD_eq_getElem?_getD, List.getElem?_set, hi]

lemma getD_set_ne {α : Type} {l : List α} {i j : Nat} (h : i ≠ j) (a d : α) :
    (l.set i a).getD j d = l.getD j d := by
  simp [List.getD_eq_getElem?_getD, List.getElem?_set, h]

lemma foldl_invariant {S I : Type} {f : S → I → S} {P : S → Prop}
    (hf : ∀ s i, P s → P (f s i)) :
    ∀ (l : List I) (s : S), P s → P (l.foldl f s) := by
  intro l
  induction l with
  | nil => intro s hs; exact hs
  | cons i rest ih => intro s hs; exact ih (f s i) (hf s i hs)

/-! ### Frame lemmas for the address manager -/

lemma scanFree_spec (fuel root : Nat) (is : List Nat) :
    ∀ parent info mask,
      mask ⊆ (scanFree fuel root parent info mask is).2.1 ∧
      (scanFree fuel root parent info mask is).1.length = info.length ∧
      ∀ j, (j + 1) ∉ (scanFree fuel root parent info mask is).2.1 →
        (scanFree fuel root parent info mask is).1.getD j PortInfo.invalid =
          info.getD j PortInfo.invalid := by
  induction is with
  | nil => intro parent info mask; simp [scanFree]
  | cons i rest ih =>
    intro parent info mask
    show mask ⊆ (scanFree fuel root parent info mask (i :: rest)).2.1 ∧ _
    simp only [scanFree]
    split
    · split
      · have hrec := ih (ufFind fuel parent i).1 (info.set i PortInfo.invalid)
          (insert (i + 1) mask)
        refine ⟨?_, ?_, ?_⟩
        · exact fun a ha => hrec.1 (Finset.mem_insert_of_mem ha)
        · rw [hrec.2.1, List.length_set]
        · intro j hj
          have hji : j ≠ i := by
            intro heq
            exact hj (hrec.1 (by simp [heq]))
          rw [hrec.2.2 j hj, getD_set_ne (fun h => hji h.symm)]
      · exact ih (ufFind fuel parent i).1 info mask
    · exact ih parent info mask

lemma free_subtree_none {m : DeviceAddressManager} {q : PortInfo}
    (h : m.find_index q = none) : m.free_subtree q = (∅, m) := by
  simp [DeviceAddressManager.free_subtree, h]

lemma free_subtree_some (m : DeviceAddressManager) (q : PortInfo) (idx : Nat)
    (h : m.find_index q = some idx) :
    m.free_subtree q =
      (let n := m.info.length
       let info1 := m.info.set idx PortInfo.invalid
       let built := buildComponents info1 n (List.range n, List.replicate n 0) (List.range n)
       let rc := rootComponentSearch info1 n built.1 (List.range n)
       match rc.1 with
       | some root =>
         let sf := scanFree n root rc.2 info1 {idx + 1} (List.range n)
         (sf.2.1, ⟨sf.1⟩)
       | none => ({idx + 1}, ⟨info1⟩)) := by
  simp [DeviceAddressManager.free_subtree, h]

lemma free_subtree_frame (m : DeviceAddressManager) (q : PortInfo) :
    (∀ j, (j + 1) ∉ (m.free_subtree q).1 →
      (m.free_subtree q).2.info.getD j PortInfo.invalid = m.info.getD j PortInfo.invalid) ∧
    (m.free_subtree q).2.info.length = m.info.length := by
  cases hfi : m.find_index q with
  | none => rw [free_subtree_none hfi]; exact ⟨fun j _ => rfl, rfl⟩
  | some idx =>
    rw [free_subtree_some m q idx hfi]
    cases hrc : (rootComponentSearch (m.info.set idx PortInfo.invalid) m.info.length
        (buildComponents (m.info.set idx PortInfo.invalid) m.info.length
          (List.range m.info.length, List.replicate m.info.length 0)
          (List.range m.info.length)).1 (List.range m.info.length)).1 with
    | none =>
      simp only [hrc]
      constructor
      · intro j hj
        have hji : j ≠ idx := by
          intro heq; exact hj (by simp [heq])
        exact getD_set_ne (fun h => hji h.symm) _ _
      · exact List.length_set m.info idx PortInfo.invalid
    | some root =>
      simp only [hrc]
      have hs := scanFree_spec m.info.length root (List.range m.info.length)
        (rootComponentSearch (m.info.set idx PortInfo.invalid) m.info.length
          (buildComponents (m.info.set idx PortInfo.invalid) m.info.length
            (List.range m.info.length, List.replicate m.info.length 0)
            (List.range m.info.length)).1 (List.range m.info.length)).2
        (m.info.set idx PortInfo.invalid) {idx + 1}
      constructor
      · intro j hj
        have hji : j ≠ idx := by
          intro heq
          exact hj (hs.1 (by simp [heq]))
        rw [hs.2.2 j hj, getD_set_ne (fun h => hji h.symm)]
      · rw [hs.2.1, List.length_set]

/-! ### Allocation sequences (claim C9)

A *live* handle is one returned by `alloc_device_address` whose address has
not since been invalidated (by `free_address` on that address, by
`free_all_addresses`, or by appearing in a `free_subtree` mask).  The world
carries that ghost list of live handles next to the manager. -/

lemma alloc_some_spec {m : DeviceAddressManager} {mps : Nat} {parent : DevInfo}
    {h : DeviceHandle} {m' : DeviceAddressManager}
    (ha : m.alloc_device_address mps parent = some (h, m')) :
    ∃ i, i < m.info.length ∧ (m.info.getD i PortInfo.invalid).is_empty = true ∧
      h = ⟨i + 1, mps, parent⟩ ∧ m'.info = m.info.set i parent.port := by
  unfold DeviceAddressManager.alloc_device_address at ha
  cases hf : m.info.findIdx? (fun p => p.is_empty) with
  | none => rw [hf] at ha; exact absurd ha (by simp)
  | some i =>
    rw [hf] at ha
    obtain ⟨hlt, hp, _⟩ := List.findIdx?_eq_some_iff_getElem.mp hf
    refine ⟨i, hlt, ?_, ?_, ?_⟩
    · rw [List.getD_eq_getElem?_getD, List.getElem?_eq_getElem hlt]
      exact hp
    · exact (Prod.mk.injEq _ _ _ _ ▸ Option.some.injEq _ _ ▸ ha).1.symm
    · have := (Prod.mk.injEq _ _ _ _ ▸ Option.some.injEq _ _ ▸ ha).2
      rw [← this]

/-- One operation of the address-manager interface. -/
inductive AllocOp where
  | alloc (max_packet_size : Nat) (parent : DevInfo)
  | free (h : DeviceHandle)
  | freeAll
  | freeSubtree (q : PortInfo)

/-- The side conditions of the claim: every allocation is given a `DevInfo`
with a non-empty parent port, and `free_address` is only applied to handles
that `alloc_device_address` can have produced (address at least 1; the Rust
`free_address` would panic on the index underflow otherwise). -/
def AllocOp.ok : AllocOp → Prop
  | .alloc _ parent => parent.port.is_empty = false
  | .free h => 1 ≤ h.address
  | .freeAll => True
  | .freeSubtree _ => True

/-- Manager state together with the ghost list of live handles. -/
structure AllocWorld where
  mgr : DeviceAddressManager
  live : List DeviceHandle

/-- Initial world: a fresh manager (`DeviceAddressManager::new`), no handles. -/
def AllocWorld.init (n : Nat) : AllocWorld := ⟨DeviceAddressManager.new n, []⟩

/-- Interpretation of one operation.  An allocation on a full table panics in
the Rust code; that case leaves the world unchanged and produces no handle. -/
def AllocWorld.step (w : AllocWorld) : AllocOp → AllocWorld
  | .alloc mps parent =>
    match w.mgr.alloc_device_address mps parent with
    | some (h, m') => ⟨m', h :: w.live⟩
    | none => w
  | .free h =>
    ⟨w.mgr.free_address h, w.live.filter (fun h2 => decide (h2.address ≠ h.address))⟩
  | .freeAll => ⟨(w.mgr.free_all_addresses).2, []⟩
  | .freeSubtree q =>
    let r := w.mgr.free_subtree q
    ⟨r.2, w.live.filter (fun h2 => decide (h2.address ∉ r.1))⟩

/-- The preserved invariant: every live handle has an address between 1 and
the table size whose slot is occupied, and live addresses are distinct. -/
def AllocInv (w : AllocWorld) : Prop :=
  (∀ h ∈ w.live, 1 ≤ h.address ∧ h.address ≤ w.mgr.info.length ∧
    (w.mgr.info.getD (h.address - 1) PortInfo.invalid).is_empty = false) ∧
  w.live.Pairwise (fun a b => a.address ≠ b.address)

lemma step_length (w : AllocWorld) (op : AllocOp) :
    (w.step op).mgr.info.length = w.mgr.info.length := by
  cases op with
  | alloc mps parent =>
    show (match w.mgr.alloc_device_address mps parent with
      | some (h, m') => (⟨m', h :: w.live⟩ : AllocWorld)
      | none => w).mgr.info.length = _
    cases ha : w.mgr.alloc_device_address mps parent with
    | none => rfl
    | some pr =>
      obtain ⟨hA, mA⟩ := pr
      obtain ⟨i, _, _, _, hm'⟩ := alloc_some_spec ha
      simp only [hm', List.length_set]
  | free h => exact List.length_set _ _ _
  | freeAll =>
    show ((w.mgr.free_all_addresses).2).info.length = _
    unfold DeviceAddressManager.free_all_addresses
    refine @foldl_invariant (Finset Nat × DeviceAddressManager) Nat _
      (fun acc => acc.2.info.length = w.mgr.info.length) ?_ _ _ rfl
    intro s i hs
    dsimp only
    split
    · simpa [List.length_set] using hs
    · exact hs
  | freeSubtree q => exact (free_subtree_frame w.mgr q).2

lemma step_preserves (w : AllocWorld) (op : AllocOp) (hok : op.ok)
    (hw : AllocInv w) : AllocInv (w.step op) := by
  obtain ⟨hmem, hpw⟩ := hw
  cases op with
  | alloc mps parent =>
    show AllocInv (match w.mgr.alloc_device_address mps parent with
      | some (h, m') => (⟨m', h :: w.live⟩ : AllocWorld)
      | none => w)
    cases ha : w.mgr.alloc_device_address mps parent with
    | none => exact ⟨hmem, hpw⟩
    | some pr =>
      obtain ⟨hA, mA⟩ := pr
      obtain ⟨i, hlt, hempty, hh, hm'⟩ := alloc_some_spec ha
      subst hh
      show AllocInv ⟨mA, ⟨i + 1, mps, parent⟩ :: w.live⟩
      have hfresh : ∀ h2 ∈ w.live, h2.address ≠ i + 1 := by
        intro h2 h2mem heq
        have := (hmem h2 h2mem).2.2
        rw [heq] at this
        simp only [Nat.add_sub_cancel] at this
        rw [hempty] at this
        exact Bool.true_eq_false.mp this
      constructor
      · intro h2 h2mem
        rcases List.mem_cons.mp h2mem with rfl | h2mem
        · refine ⟨Nat.le_add_left 1 i, ?_, ?_⟩
          · show i + 1 ≤ mA.info.length
            rw [hm', List.length_set]
            omega
          · show (mA.info.getD (i + 1 - 1) PortInfo.invalid).is_empty = false
            rw [hm']
            have hi : i + 1 - 1 = i := by omega
            rw [hi, getD_set_self hlt]
            exact hok
        · obtain ⟨h1, h2le, h3⟩ := hmem h2 h2mem
          refine ⟨h1, ?_, ?_⟩
          · show h2.address ≤ mA.info.length
            rw [hm', List.length_set]
            exact h2le
          · show (mA.info.getD (h2.address - 1) PortInfo.invalid).is_empty = false
            rw [hm', getD_set_ne, h3]
            intro heq
            have hx : h2.address = i + 1 := by omega
            exact hfresh h2 h2mem hx
      · exact List.Pairwise.cons (fun h2 h2mem e => hfresh h2 h2mem e.symm) hpw
  | free h =>
    show AllocInv ⟨w.mgr.free_address h,
      w.live.filter (fun h2 => decide (h2.address ≠ h.address))⟩
    constructor
    · intro h2 h2mem
      rw [List.mem_filter] at h2mem
      obtain ⟨h2mem, hne⟩ := h2mem
      have hne : h2.address ≠ h.address := of_decide_eq_true hne
      obtain ⟨h1, h2le, h3⟩ := hmem h2 h2mem
      have haddr : 1 ≤ h.address := hok
      refine ⟨h1, by simpa [DeviceAddressManager.free_address, List.length_set] using h2le, ?_⟩
      show ((w.mgr.free_address h).info.getD (h2.address - 1) PortInfo.invalid).is_empty = false
      unfold DeviceAddressManager.free_address
      rw [getD_set_ne, h3]
      intro heq
      exact hne (by omega)
    · exact hpw.sublist (List.filter_sublist _)
  | freeAll =>
    show AllocInv ⟨(w.mgr.free_all_addresses).2, []⟩
    exact ⟨fun h hmem => absurd hmem (List.not_mem_nil h), List.Pairwise.nil⟩
  | freeSubtree q =>
    show AllocInv ⟨(w.mgr.free_subtree q).2,
      w.live.filter (fun h2 => decide (h2.address ∉ (w.mgr.free_subtree q).1))⟩
    constructor
    · intro h2 h2mem
      rw [List.mem_filter] at h2mem
      obtain ⟨h2mem, hnm⟩ := h2mem
      have hnm : h2.address ∉ (w.mgr.free_subtree q).1 := of_decide_eq_true hnm
      obtain ⟨h1, h2le, h3⟩ := hmem h2 h2mem
      refine ⟨h1, by rw [(free_subtree_frame w.mgr q).2]; exact h2le, ?_⟩
      show (((w.mgr.free_subtree q).2).info.getD (h2.address - 1) PortInfo.invalid).is_empty = false
      rw [(free_subtree_frame w.mgr q).1 (h2.address - 1) (by
        have : h2.address - 1 + 1 = h2.address := by omega
        rw [this]; exact hnm)]
      exact h3
    · exact hpw.sublist (List.filter_sublist _)

/-- C9: for every sequence of address-manager operations (allocations given a
`DevInfo` with non-empty parent port), at every point no two live handles
share an address, and every live address lies between 1 and `NR_DEVICES`. -/
theorem alloc_address_uniqueness (n : Nat) (ops : List AllocOp)
    (hops : ∀ op ∈ ops, op.ok) :
    ((ops.foldl AllocWorld.step (AllocWorld.init n)).live.Pairwise
        fun a b => a.address ≠ b.address) ∧
    ∀ h ∈ (ops.foldl AllocWorld.step (AllocWorld.init n)).live,
      1 ≤ h.address ∧ h.address ≤ n := by
  suffices hgen : ∀ (ops : List AllocOp) (w : AllocWorld), (∀ op ∈ ops, op.ok) →
      AllocInv w → w.mgr.info.length = n →
      AllocInv (ops.foldl AllocWorld.step w) ∧
        (ops.foldl AllocWorld.step w).mgr.info.length = n by
    obtain ⟨⟨h1, h2⟩, hlen⟩ := hgen ops (AllocWorld.init n) hops
      ⟨fun h hmem => absurd hmem (List.not_mem_nil h), List.Pairwise.nil⟩
      (by simp [AllocWorld.init, DeviceAddressManager.new])
    exact ⟨h2, fun h hmem => ⟨(h1 h hmem).1, hlen ▸ (h1 h hmem).2.1⟩⟩
  intro ops
  induction ops with
  | nil => intro w _ hw hlen; exact ⟨hw, hlen⟩
  | cons op rest ih =>
    intro w hok hw hlen
    exact ih (w.step op) (fun o ho => hok o (List.mem_cons_of_mem op ho))
      (step_preserves w op (hok op (List.mem_cons_self op rest)) hw)
      ((step_length w op).trans hlen)

/-- Witness for C9 at a concrete input: two allocations under a root device
and a child, then freeing the first. -/
theorem alloc_address_uniqueness_witness :
    (∀ op ∈ [AllocOp.alloc 8 (DevInfo.root_device .FullSpeed),
             AllocOp.alloc 8 (DevInfo.new 1 1 none .LowSpeed),
             AllocOp.free ⟨1, 8, DevInfo.root_device .FullSpeed⟩], op.ok) ∧
    ((([AllocOp.alloc 8 (DevInfo.root_device .FullSpeed),
        AllocOp.alloc 8 (DevInfo.new 1 1 none .LowSpeed),
        AllocOp.free ⟨1, 8, DevInfo.root_device .FullSpeed⟩].foldl
          AllocWorld.step (AllocWorld.init 4)).live.Pairwise
        fun a b => a.address ≠ b.address) ∧
      ∀ h ∈ ([AllocOp.alloc 8 (DevInfo.root_device .FullSpeed),
              AllocOp.alloc 8 (DevInfo.new 1 1 none .LowSpeed),
              AllocOp.free ⟨1, 8, DevInfo.root_device .FullSpeed⟩].foldl
          AllocWorld.step (AllocWorld.init 4)).live,
        1 ≤ h.address ∧ h.address ≤ 4) := by
  constructor
  · intro op hop
    fin_cases hop <;> simp [AllocOp.ok, DevInfo.root_device, DevInfo.new, PortInfo.new,
      PortInfo.is_empty, DevInfo.port, PortInfo.port]
  · refine alloc_address_uniqueness 4 _ ?_
    intro op hop
    fin_cases hop <;> simp [AllocOp.ok, DevInfo.root_device, DevInfo.new, PortInfo.new,
      PortInfo.is_empty, DevInfo.port, PortInfo.port]

/-! ### Claim C10: free_subtree on an unmatched PortInfo -/

/-- C10 (amended): if `free_subtree` is called with a `PortInfo` that differs
from every stored slot value (`find_index` compares against every slot, empty
ones included), it returns an empty `DeviceDisconnectMask` and leaves the
address table unchanged. -/
theorem free_subtree_unmatched_query (m : DeviceAddressManager) (q : PortInfo)
    (h : ∀ p ∈ m.info, p ≠ q) : m.free_subtree q = (∅, m) := by
  refine free_subtree_none ?_
  unfold DeviceAddressManager.find_index
  exact List.findIdx?_eq_none_iff.mpr (fun p hp => by
    simpa using h p hp)

/-- Witness for C10 at a concrete input: a one-slot table holding (0x81, 1),
queried with the unmatched (0x81, 2). -/
theorem free_subtree_unmatched_query_witness :
    (∀ p ∈ (⟨[PortInfo.new 0x81 1]⟩ : DeviceAddressManager).info,
        p ≠ PortInfo.new 0x81 2) ∧
    (⟨[PortInfo.new 0x81 1]⟩ : DeviceAddressManager).free_subtree (PortInfo.new 0x81 2) =
      (∅, ⟨[PortInfo.new 0x81 1]⟩) := by
  constructor
  · decide
  · exact free_subtree_unmatched_query _ _ (by decide)

/-- C10 counterexample to the claim as stated: on the table
`[invalid, (0x81, 1)]` the query `PortInfo.invalid` matches no *live* slot
(the only live slot holds (0x81, 1)), yet `free_subtree` returns the
non-empty mask containing address 1, because `find_index` matched the empty
slot 0. -/
theorem free_subtree_unmatched_query_cex :
    (∀ i, i < 2 →
      ((⟨[PortInfo.invalid, PortInfo.new 0x81 1]⟩ : DeviceAddressManager).info.getD i
          PortInfo.invalid).is_empty = false →
      (⟨[PortInfo.invalid, PortInfo.new 0x81 1]⟩ : DeviceAddressManager).info.getD i
          PortInfo.invalid ≠ PortInfo.invalid) ∧
    ((⟨[PortInfo.invalid, PortInfo.new 0x81 1]⟩ : DeviceAddressManager).free_subtree
        PortInfo.invalid).1 ≠ (∅ : Finset Nat) := by
  constructor
  · decide
  · decide

/-! ### descriptor/mod.rs: parse_descriptor (claim C8)

Buffers are byte lists.  Struct sizes from the packed Rust layouts:
`DescriptorHeader` = 2, `DeviceDescriptor` = 18 (offset of `max_packet_size`
is 7), `ConfigurationDescriptor` = 9, `InterfaceDescriptor` = 9,
`EndpointDescriptor` = 7. -/

/-- Embeds `descriptor/mod.rs::Descriptor`; each record carries the bytes it
was transmuted from (the consumed prefix of the buffer). -/
inductive Descriptor where
  | Device (data : List Nat)
  | Configuration (data : List Nat)
  | Endpoint (data : List Nat)
  | Interface (data : List Nat)
  | UnknownDescriptor (descriptor_type length : Nat) (data : List Nat)
deriving DecidableEq, Repr

/-- Embeds `descriptor/mod.rs::parse_descriptor` (lines 125-207).  The result
is `none` exactly where the Rust panics: on a String descriptor
(`DescriptorType::String => panic!()`) and on an unknown-type record whose
header length exceeds the buffer (the slice `&buf[..header.length]` is out of
range).  `buf.getD 0 0` is `header.length`, `buf.getD 1 0` is
`header.descriptor_type`. -/
def parse_descriptor (buf : List Nat) :
    Option (Except UsbHostError (Descriptor × Nat)) :=
  if buf.length < 2 then some (.error (.ParsingError .Incomplete))
  else if buf.getD 1 0 = 1 then
    if buf.getD 0 0 ≠ 18 then some (.error (.ParsingError .InvalidLength))
    else if buf.length < 8 then some (.error (.ParsingError .Incomplete))
    else if buf.length < buf.getD 0 0 then
      some (.error (.ParsingError (.IncompleteDeviceDescriptor (buf.getD 7 0))))
    else some (.ok (.Device (buf.take 18), buf.getD 0 0))
  else if buf.getD 1 0 = 2 then
    if buf.length < 9 then some (.error (.ParsingError .Incomplete))
    else some (.ok (.Configuration (buf.take 9), buf.getD 0 0))
  else if buf.getD 1 0 = 3 then none
  else if buf.getD 1 0 = 4 then
    if buf.length < 9 then some (.error (.ParsingError .Incomplete))
    else some (.ok (.Interface (buf.take 9), buf.getD 0 0))
  else if buf.getD 1 0 = 5 then
    if buf.length < 7 then some (.error (.ParsingError .Incomplete))
    else some (.ok (.Endpoint (buf.take 7), buf.getD 0 0))
  else
    if buf.length < buf.getD 0 0 then none
    else some (.ok (.UnknownDescriptor (buf.getD 1 0) (buf.getD 0 0)
      (buf.take (buf.getD 0 0)), buf.getD 0 0))

/-- C8 (amended): for every input byte slice that does not start a String
descriptor (type 3) and whose header length does not exceed the buffer when
the type is non-standard, `parse_descriptor` returns totally: `Incomplete`
when the buffer ends before the header or before a standard record's fixed
part (a Device record with at least its first 8 bytes instead reports the
in-band `IncompleteDeviceDescriptor`), `InvalidLength` when a Device header
length differs from 18, and non-standard types are returned in-band as
`Unknown` records carrying their type, length and data. -/
theorem parse_descriptor_total (buf : List Nat)
    (hstr : ¬ (2 ≤ buf.length ∧ buf.getD 1 0 = 3))
    (hunk : 2 ≤ buf.length → buf.getD 1 0 ∉ ([1, 2, 3, 4, 5] : List Nat) →
      buf.getD 0 0 ≤ buf.length) :
    (∃ r, parse_descriptor buf = some r) ∧
    (buf.length < 2 → parse_descriptor buf = some (.error (.ParsingError .Incomplete))) ∧
    (2 ≤ buf.length → buf.getD 1 0 ∉ ([1, 2, 3, 4, 5] : List Nat) →
      parse_descriptor buf = some (.ok
        (.UnknownDescriptor (buf.getD 1 0) (buf.getD 0 0) (buf.take (buf.getD 0 0)),
          buf.getD 0 0))) ∧
    (2 ≤ buf.length → buf.getD 1 0 = 1 → buf.getD 0 0 ≠ 18 →
      parse_descriptor buf = some (.error (.ParsingError .InvalidLength))) ∧
    (2 ≤ buf.length → buf.getD 1 0 = 1 → buf.getD 0 0 = 18 → buf.length < 8 →
      parse_descriptor buf = some (.error (.ParsingError .Incomplete))) := by
  refine ⟨?_, ?_, ?_, ?_, ?_⟩
  · unfold parse_descriptor
    split_ifs with h1 h2 h3 h4 h5 h6 h7 h8 h9 h10 h11 h12 h13
    any_goals exact ⟨_, rfl⟩
    · exact absurd ⟨by omega, h8⟩ hstr
    · refine absurd (hunk (by omega) ?_) (by omega)
      simp only [List.mem_cons, List.not_mem_nil, or_false]
      push_neg
      exact ⟨h2, h6, h8, h9, h11⟩
  · intro h
    unfold parse_descriptor
    rw [if_pos h]
  · intro h2' hmem
    simp only [List.mem_cons, List.not_mem_nil, or_false] at hmem
    push_neg at hmem
    obtain ⟨n1, n2, n3, n4, n5⟩ := hmem
    unfold parse_descriptor
    rw [if_neg (by omega), if_neg n1, if_neg n2, if_neg n3, if_neg n4, if_neg n5,
      if_neg (by
        have := hunk h2' (by
          simp only [List.mem_cons, List.not_mem_nil, or_false]
          push_neg
          exact ⟨n1, n2, n3, n4, n5⟩)
        omega)]
  · intro h2' ht1 hne
    unfold parse_descriptor
    rw [if_neg (by omega), if_pos ht1, if_pos hne]
  · intro h2' ht1 h18 hlt
    unfold parse_descriptor
    rw [if_neg (by omega), if_pos ht1, if_neg (not_not_intro h18), if_pos hlt]

/-- Witness for C8 at a concrete input: a 3-byte HID-class descriptor
(type 0x21) with header length 3 parses in-band as Unknown. -/
theorem parse_descriptor_total_witness :
    (¬ (2 ≤ ([3, 33, 7] : List Nat).length ∧ ([3, 33, 7] : List Nat).getD 1 0 = 3)) ∧
    (∃ r, parse_descriptor [3, 33, 7] = some r) ∧
    parse_descriptor [3, 33, 7] =
      some (.ok (.UnknownDescriptor 33 3 [3, 33, 7], 3)) := by
  have h := parse_descriptor_total [3, 33, 7] (by decide) (fun _ _ => by decide)
  exact ⟨by decide, h.1, by
    have := h.2.2.1 (by decide) (by decide)
    simpa using this⟩

/-- C8 counterexample to the claim as stated: `parse_descriptor` does not
return totally on every input: a String descriptor header (type 3) hits
`panic!()`, and an unknown-type header whose length exceeds the buffer
panics slicing `&buf[..header.length]`. -/
theorem parse_descriptor_total_cex :
    parse_descriptor [4, 3, 0, 0] = none ∧ parse_descriptor [200, 33] = none := by
  constructor <;> rfl

/-! ### pipe.rs: the transfer engine

The low-level `D::Pipe` primitives (`setup`, `data_in`, `data_out`, `split`)
are modelled by finite streams of their outcomes, in call order: the
outcomes that the hardware delivers before the 500 ms `TRANSFER_TIMEOUT`
deadline of the enclosing engine operation.  An engine loop that runs out of
its stream has not completed by the deadline; a function returns `none` in
that case (the future is still pending), and the `select`-with-timer wrappers
of `pipe.rs` turn that `none` into `TransferTimeout`.  Data toggles and
buffers do not influence the control flow of the engine loops and are not
part of the streams; the toggles the engine chooses are modelled where the
claims need them (`control_data_loop`, `interrupt_transfer`). -/

/-- Embeds the first loop of `USBHostPipeInner::split_setup` (`pipe.rs` lines
67-86): SSPLIT token then SETUP, retrying the pair while the SETUP is NAKed;
any `split` error and any non-NAK setup error are returned. -/
def split_setup_ssplit_csplit :
    Bool → List (Except UsbHostError Unit) → List (Except UsbHostError Unit) →
    Option (Except UsbHostError Unit) ×
      List (Except UsbHostError Unit) × List (Except UsbHostError Unit)
  | _, [], stp => (none, [], stp)
  | _, .error e :: ss, stp => (some (.error e), ss, stp)
  | _, .ok _ :: ss, [] => (none, ss, [])
  | complete, .ok _ :: ss, t :: stp =>
    match complete, t with
    | _, .ok _ =>
      if complete then (some (.ok ()), ss, stp)
      else split_setup_ssplit_csplit true ss stp
    | false, .error .NAK => split_setup_ssplit_csplit false ss stp
    | true, .error .NYET => split_setup_ssplit_csplit true ss stp
    | _, .error e => (some (.error e), ss, stp)

/-- Embeds `USBHostPipeInner::split_setup` (`pipe.rs` lines 59-105): the
SSPLIT loop (retry on NAK) followed by the CSPLIT loop (retry on NYET).
`ss` is the `split` outcome stream, `stp` the `setup` outcome stream. -/
def split_setup (ss stp : List (Except UsbHostError Unit)) :
    Option (Except UsbHostError Unit) ×
      List (Except UsbHostError Unit) × List (Except UsbHostError Unit) :=
  split_setup_ssplit_csplit false ss stp

/-- Embeds `USBHostPipeInner::setup` (`pipe.rs` lines 107-129).  A timeout
future is created, but the split path returns `split_setup` *before* the
`select` against it, so only the direct path is raced with the timer: an
unfinished direct setup becomes `TransferTimeout`, an unfinished split setup
stays pending (`none`). -/
def inner_setup (dev : DevInfo) (stp ss : List (Except UsbHostError Unit)) :
    Option (Except UsbHostError Unit) ×
      List (Except UsbHostError Unit) × List (Except UsbHostError Unit) :=
  match dev.transaction_translator with
  | some _ =>
    match split_setup ss stp with
    | (r, ss', stp') => (r, stp', ss')
  | none =>
    match stp with
    | [] => (some (.error .TransferTimeout), [], ss)
    | t :: stp' => (some t, stp', ss)

/-- Embeds the SSPLIT priming loop of `USBHostPipeInner::split_data_in`
(`pipe.rs` lines 174-194): SSPLIT token then IN (no ack), retrying the pair
while the IN is NAKed. -/
def ssplit_prime :
    List (Except UsbHostError Unit) → List (Except UsbHostError Nat) →
    Option (Except UsbHostError Unit) ×
      List (Except UsbHostError Unit) × List (Except UsbHostError Nat)
  | [], ds => (none, [], ds)
  | .error e :: ss, ds => (some (.error e), ss, ds)
  | .ok _ :: ss, [] => (none, ss, [])
  | .ok _ :: ss, d :: ds =>
    match d with
    | .ok _ => (some (.ok ()), ss, ds)
    | .error .NAK => ssplit_prime ss ds
    | .error e => (some (.error e), ss, ds)

/-- Outcome of one CSPLIT phase of `split_data_in`. -/
inductive CsplitOut where
  | done (r : Except UsbHostError Nat)
  | giveup
  | hung
deriving Repr

/-- Embeds the CSPLIT loop of `USBHostPipeInner::split_data_in` (`pipe.rs`
lines 199-230): CSPLIT token then IN; success and non-NYET errors return,
NYET bumps `csplit_count` and gives up once it reaches 5.  The returned list
records the IN outcomes this phase consumed, in order (ghost instrumentation
for the retry-budget claim); its length is the number of IN attempts. -/
def csplit_loop (count : Nat) :
    List (Except UsbHostError Unit) → List (Except UsbHostError Nat) →
    CsplitOut × List (Except UsbHostError Unit) × List (Except UsbHostError Nat) ×
      List (Except UsbHostError Nat)
  | [], ds => (.hung, [], ds, [])
  | .error e :: ss, ds => (.done (.error e), ss, ds, [])
  | .ok _ :: ss, [] => (.hung, ss, [], [])
  | .ok _ :: ss, d :: ds =>
    match d with
    | .ok n => (.done (.ok n), ss, ds, [d])
    | .error .NYET =>
      if 5 ≤ count + 1 then (.giveup, ss, ds, [d])
      else
        match csplit_loop (count + 1) ss ds with
        | (o, ss', ds', c) => (o, ss', ds', d :: c)
    | .error e => (.done (.error e), ss, ds, [d])

/-- One round-end record of `split_data_in` (ghost instrumentation): how the
CSPLIT phase of the round ended and how many IN attempts it made. -/
inductive RoundEnd where
  | gaveUp (attempts : Nat)
  | finished (attempts : Nat)
  | hungPrime
  | hungCsplit (attempts : Nat)
deriving DecidableEq, Repr

/-- Embeds the `for _ in 0..3` round structure of
`USBHostPipeInner::split_data_in` (`pipe.rs` lines 173-235): prime with
SSPLIT (unbounded NAK retry), then the CSPLIT loop; a round whose CSPLIT
budget is exhausted starts the next round; when all rounds are exhausted the
routine returns `STALL`.  The `List RoundEnd` output is ghost
instrumentation. -/
def split_data_in_rounds :
    Nat → List (Except UsbHostError Unit) → List (Except UsbHostError Nat) →
    Option (Except UsbHostError Nat) ×
      List (Except UsbHostError Unit) × List (Except UsbHostError Nat) × List RoundEnd
  | 0, ss, ds => (some (.error .STALL), ss, ds, [])
  | r + 1, ss, ds =>
    match ssplit_prime ss ds with
    | (none, ss', ds') => (none, ss', ds', [.hungPrime])
    | (some (.error e), ss', ds') => (some (.error e), ss', ds', [.hungPrime])
    | (some (.ok _), ss', ds') =>
      match csplit_loop 0 ss' ds' with
      | (.done res, ss2, ds2, c) => (some res, ss2, ds2, [.finished c.length])
      | (.hung, ss2, ds2, c) => (none, ss2, ds2, [.hungCsplit c.length])
      | (.giveup, ss2, ds2, c) =>
        match split_data_in_rounds r ss2 ds2 with
        | (res, ss3, ds3, stats) => (res, ss3, ds3, .gaveUp c.length :: stats)

/-- Embeds `USBHostPipeInner::split_data_in` (`pipe.rs` lines 156-235). -/
def split_data_in (ss : List (Except UsbHostError Unit))
    (ds : List (Except UsbHostError Nat)) :
    Option (Except UsbHostError Nat) ×
      List (Except UsbHostError Unit) × List (Except UsbHostError Nat) × List RoundEnd :=
  split_data_in_rounds 3 ss ds

/-- Embeds `USBHostPipeInner::data_in` (`pipe.rs` lines 237-269): the split
path runs `split_data_in` and the direct path one IN transaction, both raced
against the `TRANSFER_TIMEOUT` timer, so an unfinished transaction becomes
`TransferTimeout`. -/
def inner_data_in (dev : DevInfo) (ss : List (Except UsbHostError Unit))
    (ds : List (Except UsbHostError Nat)) :
    Except UsbHostError Nat ×
      List (Except UsbHostError Unit) × List (Except UsbHostError Nat) :=
  match dev.transaction_translator with
  | some _ =>
    match split_data_in ss ds with
    | (none, ss', ds', _) => (.error .TransferTimeout, ss', ds')
    | (some r, ss', ds', _) => (r, ss', ds')
  | none =>
    match ds with
    | [] => (.error .TransferTimeout, ss, [])
    | d :: ds' => (d, ss, ds')

/-- Embeds `USBHostPipeInner::data_in_with_retry` (`pipe.rs` lines 131-154):
retry the whole (possibly split) IN while it returns NAK.  The Rust loop is
unbounded; the fuel is called with more than the total stream length, which
the loop cannot exceed since every NAK retry consumed at least one stream
element. -/
def data_in_with_retry (dev : DevInfo) :
    Nat → List (Except UsbHostError Unit) → List (Except UsbHostError Nat) →
    Option (Except UsbHostError Nat) ×
      List (Except UsbHostError Unit) × List (Except UsbHostError Nat)
  | 0, ss, ds => (none, ss, ds)
  | fuel + 1, ss, ds =>
    match inner_data_in dev ss ds with
    | (.error .NAK, ss', ds') => data_in_with_retry dev fuel ss' ds'
    | (r, ss', ds') => (some r, ss', ds')

/-- Embeds the SSPLIT loop of `USBHostPipeInner::split_data_out` (`pipe.rs`
lines 307-327). -/
def ssplit_out_prime :
    List (Except UsbHostError Unit) → List (Except UsbHostError Unit) →
    Option (Except UsbHostError Unit) ×
      List (Except UsbHostError Unit) × List (Except UsbHostError Unit)
  | [], os => (none, [], os)
  | .error e :: ss, os => (some (.error e), ss, os)
  | .ok _ :: ss, [] => (none, ss, [])
  | .ok _ :: ss, o :: os =>
    match o with
    | .ok _ => (some (.ok ()), ss, os)
    | .error .NAK => ssplit_out_prime ss os
    | .error e => (some (.error e), ss, os)

/-- Embeds the CSPLIT loop of `USBHostPipeInner::split_data_out` (`pipe.rs`
lines 330-344): unbounded retry on NYET. -/
def csplit_out_loop :
    List (Except UsbHostError Unit) → List (Except UsbHostError Unit) →
    Option (Except UsbHostError Unit) ×
      List (Except UsbHostError Unit) × List (Except UsbHostError Unit)
  | [], os => (none, [], os)
  | .error e :: ss, os => (some (.error e), ss, os)
  | .ok _ :: ss, [] => (none, ss, [])
  | .ok _ :: ss, o :: os =>
    match o with
    | .ok _ => (some (.ok ()), ss, os)
    | .error .NYET => csplit_out_loop ss os
    | .error e => (some (.error e), ss, os)

/-- Embeds `USBHostPipeInner::split_data_out` (`pipe.rs` lines 296-345). -/
def split_data_out (ss os : List (Except UsbHostError Unit)) :
    Option (Except UsbHostError Unit) ×
      List (Except UsbHostError Unit) × List (Except UsbHostError Unit) :=
  match ssplit_out_prime ss os with
  | (none, ss', os') => (none, ss', os')
  | (some (.error e), ss', os') => (some (.error e), ss', os')
  | (some (.ok _), ss', os') => csplit_out_loop ss' os'

/-- Embeds `USBHostPipeInner::data_out` (`pipe.rs` lines 347-379): both paths
are raced against the `TRANSFER_TIMEOUT` timer. -/
def inner_data_out (dev : DevInfo) (ss os : List (Except UsbHostError Unit)) :
    Except UsbHostError Unit ×
      List (Except UsbHostError Unit) × List (Except UsbHostError Unit) :=
  match dev.transaction_translator with
  | some _ =>
    match split_data_out ss os with
    | (none, ss', os') => (.error .TransferTimeout, ss', os')
    | (some r, ss', os') => (r, ss', os')
  | none =>
    match os with
    | [] => (.error .TransferTimeout, ss, [])
    | o :: os' => (o, ss, os')

/-- Embeds `USBHostPipeInner::data_out_with_retry` (`pipe.rs` lines
271-294). -/
def data_out_with_retry (dev : DevInfo) :
    Nat → List (Except UsbHostError Unit) → List (Except UsbHostError Unit) →
    Option (Except UsbHostError Unit) ×
      List (Except UsbHostError Unit) × List (Except UsbHostError Unit)
  | 0, ss, os => (none, ss, os)
  | fuel + 1, ss, os =>
    match inner_data_out dev ss os with
    | (.error .NAK, ss', os') => data_out_with_retry dev fuel ss' os'
    | (r, ss', os') => (some r, ss', os')

/-- Embeds `request.rs::RequestTypeDirection`. -/
inductive RequestTypeDirection where
  | HostToDevice
  | DeviceToHost
deriving DecidableEq, Repr

/-- Embeds the fields of `request.rs::Request` that steer the transfer
engine: the data direction decoded from `request_type`, the `value` field
(carries the new address in Set_Address) and the `length` field. -/
structure Request where
  direction : RequestTypeDirection
  value : Nat
  length : Nat
deriving DecidableEq, Repr

/-- The alternating toggle sequence starting at `t`. -/
def altSeq (t : DataTog) : Nat → List DataTog
  | 0 => []
  | n + 1 => t :: altSeq t.next n

/-- Embeds the data-stage loop of `USBHostPipe::control_transfer` (`pipe.rs`
lines 579-596): repeated `data_in_with_retry` with a toggle starting at
DATA1 and advanced by `DataTog::next` after each successful chunk, ending on
a short chunk.  Accumulates the toggles of the successful transactions
(ghost instrumentation); the fuel mirrors the finiteness of the outcome
streams. -/
def control_data_loop (dev : DevInfo) (mps : Nat) :
    Nat → DataTog → Nat → List (Except UsbHostError Unit) →
    List (Except UsbHostError Nat) → List DataTog →
    Option (Except UsbHostError Nat) ×
      List (Except UsbHostError Unit) × List (Except UsbHostError Nat) × List DataTog
  | 0, _, _, ss, ds, tr => (none, ss, ds, tr)
  | fuel + 1, tog, bytes, ss, ds, tr =>
    match data_in_with_retry dev (ss.length + ds.length + 1) ss ds with
    | (none, ss', ds') => (none, ss', ds', tr)
    | (some (.error e), ss', ds') => (some (.error e), ss', ds', tr)
    | (some (.ok len), ss', ds') =>
      if len < mps then (some (.ok (bytes + len)), ss', ds', tr ++ [tog])
      else control_data_loop dev mps fuel tog.next (bytes + len) ss' ds' (tr ++ [tog])

/-- Embeds `USBHostPipe::control_transfer` (`pipe.rs` lines 556-630): setup
stage, optional DeviceToHost data stage (toggles DATA1, DATA0, ...), status
stage in the opposite direction with toggle DATA1.  The
`HostToDevice`-with-data case is the Rust `todo!()` (modelled `none`).
Returns the result, the toggles of the successful data-stage transactions
and the toggle handed to the status stage (ghost instrumentation). -/
def control_transfer (h : DeviceHandle) (req : Request)
    (stp ss : List (Except UsbHostError Unit)) (ds : List (Except UsbHostError Nat))
    (os : List (Except UsbHostError Unit)) :
    Option (Except UsbHostError Nat) × List DataTog × Option DataTog :=
  match inner_setup h.dev_info stp ss with
  | (none, _, _) => (none, [], none)
  | (some (.error e), _, _) => (some (.error e), [], none)
  | (some (.ok _), _, ss1) =>
    let dres : Option (Except UsbHostError Nat) ×
        List (Except UsbHostError Unit) × List (Except UsbHostError Nat) × List DataTog :=
      if 0 < req.length then
        match req.direction with
        | .HostToDevice => (none, ss1, ds, [])
        | .DeviceToHost =>
          control_data_loop h.dev_info h.max_packet_size (ds.length + 1) .DATA1 0 ss1 ds []
      else (some (.ok 0), ss1, ds, [])
    match dres with
    | (none, _, _, tr) => (none, tr, none)
    | (some (.error e), _, _, tr) => (some (.error e), tr, none)
    | (some (.ok bytes), ss2, ds2, tr) =>
      match req.direction with
      | .HostToDevice =>
        match data_in_with_retry h.dev_info (ss2.length + ds2.length + 1) ss2 ds2 with
        | (none, _, _) => (none, tr, some .DATA1)
        | (some (.error e), _, _) => (some (.error e), tr, some .DATA1)
        | (some (.ok _), _, _) => (some (.ok bytes), tr, some .DATA1)
      | .DeviceToHost =>
        match data_out_with_retry h.dev_info (ss2.length + os.length + 1) ss2 os with
        | (none, _, _) => (none, tr, some .DATA1)
        | (some (.error e), _, _) => (some (.error e), tr, some .DATA1)
        | (some (.ok _), _, _) => (some (.ok bytes), tr, some .DATA1)

/-- Embeds `types.rs::EndpointDirection`. -/
inductive EndpointDirection where
  | In
  | Out
deriving DecidableEq, Repr

/-- Embeds `types.rs::InterruptChannel` (the endpoint address split into its
number and direction). -/
structure InterruptChannel where
  device_handle : DeviceHandle
  endpoint_number : Nat
  endpoint_direction : EndpointDirection
  tog : DataTog
deriving DecidableEq, Repr

/-- Embeds `USBHostPipe::interrupt_transfer` (`pipe.rs` lines 513-554): one
IN or OUT with the channel's current toggle; the `?` propagates an error
before `interrupt_channel.tog.next()` runs, so the toggle advances exactly on
success. -/
def interrupt_transfer (chan : InterruptChannel)
    (ss : List (Except UsbHostError Unit)) (ds : List (Except UsbHostError Nat))
    (os : List (Except UsbHostError Unit)) :
    Except UsbHostError Nat × InterruptChannel :=
  let res :=
    match chan.endpoint_direction with
    | .In => (inner_data_in chan.device_handle.dev_info ss ds).1
    | .Out => (inner_data_out chan.device_handle.dev_info ss os).1.map (fun _ => 0)
  match res with
  | .ok n => (.ok n, ⟨chan.device_handle, chan.endpoint_number, chan.endpoint_direction,
      chan.tog.next⟩)
  | .error e => (.error e, chan)

/-- Embeds `USBHostPipe::assign_device_address` (`pipe.rs` lines 396-445):
allocate an address, send Set_Address (value = new address) targeted at
address 0, run the status stage, and free the reserved address on any error
of those stages.  The returned list records the setup stage's (target
address, request value) pair (ghost instrumentation). -/
def assign_device_address (m : DeviceAddressManager) (max_packet_size : Nat)
    (devinfo : DevInfo) (stp ss : List (Except UsbHostError Unit))
    (ds : List (Except UsbHostError Nat)) :
    Option (Except UsbHostError DeviceHandle) × DeviceAddressManager × List (Nat × Nat) :=
  match m.alloc_device_address max_packet_size devinfo with
  | none => (none, m, [])
  | some (handle, m1) =>
    match inner_setup devinfo stp ss with
    | (none, _, _) => (none, m1, [(0, handle.address)])
    | (some (.error e), _, _) =>
      (some (.error e), m1.free_address handle, [(0, handle.address)])
    | (some (.ok _), _, ss1) =>
      match data_in_with_retry devinfo (ss1.length + ds.length + 1) ss1 ds with
      | (none, _, _) => (none, m1, [(0, handle.address)])
      | (some (.error e), _, _) =>
        (some (.error e), m1.free_address handle, [(0, handle.address)])
      | (some (.ok _), _, _) => (some (.ok handle), m1, [(0, handle.address)])

/-! ### Claim C5: the split-IN retry budget -/

/-- Number of CSPLIT IN attempts recorded in a round-end marker. -/
def RoundEnd.attempts : RoundEnd → Nat
  | .gaveUp a => a
  | .finished a => a
  | .hungPrime => 0
  | .hungCsplit a => a

/-- Whether a round ended by exhausting its CSPLIT budget. -/
def RoundEnd.gaveUpB : RoundEnd → Bool
  | .gaveUp _ => true
  | _ => false

lemma csplit_loop_consumed_le :
    ∀ (ss : List (Except UsbHostError Unit)) (count : Nat)
      (ds : List (Except UsbHostError Nat)), count ≤ 4 →
      (csplit_loop count ss ds).2.2.2.length ≤ 5 - count := by
  intro ss
  induction ss with
  | nil => intro count ds hc; simp [csplit_loop]
  | cons s ss ih =>
    intro count ds hc
    cases s with
    | error e => simp [csplit_loop]
    | ok u =>
      cases ds with
      | nil => simp [csplit_loop]
      | cons d ds =>
        cases d with
        | ok n => simp [csplit_loop]; omega
        | error e =>
          cases e <;> simp only [csplit_loop] <;> try (simp; omega)
          by_cases h5 : 5 ≤ count + 1
          · simp [h5]
            omega
          · rcases hrec : csplit_loop (count + 1) ss ds with ⟨o, ss', ds', c⟩
            have hle := ih (count + 1) ds (by omega)
            rw [hrec] at hle
            simp only [h5, if_false, hrec]
            simp only [List.length_cons]
            simp at hle
            omega

lemma csplit_loop_nyet_prefix :
    ∀ (ss : List (Except UsbHostError Unit)) (count : Nat)
      (ds : List (Except UsbHostError Nat)) (i : Nat),
      i + 1 < (csplit_loop count ss ds).2.2.2.length →
      (csplit_loop count ss ds).2.2.2.getD i (.ok 0) = .error .NYET := by
  intro ss
  induction ss with
  | nil => intro count ds i hi; simp [csplit_loop] at hi
  | cons s ss ih =>
    intro count ds i hi
    cases s with
    | error e => simp [csplit_loop] at hi
    | ok u =>
      cases ds with
      | nil => simp [csplit_loop] at hi
      | cons d ds =>
        cases d with
        | ok n => simp [csplit_loop] at hi
        | error e =>
          cases e
          case NYET =>
            by_cases h5 : 5 ≤ count + 1
            · simp [csplit_loop, h5] at hi
            · rcases hrec : csplit_loop (count + 1) ss ds with ⟨o, ss', ds', c⟩
              simp only [csplit_loop, h5, if_false, hrec] at hi ⊢
              simp only [List.length_cons] at hi
              cases i with
              | zero => simp
              | succ j =>
                have := ih (count + 1) ds j (by rw [hrec]; simpa using by omega)
                rw [hrec] at this
                simpa using this
          all_goals simp [csplit_loop] at hi

lemma split_rounds_stats_le :
    ∀ (fuel : Nat) (ss : List (Except UsbHostError Unit))
      (ds : List (Except UsbHostError Nat)),
      (split_data_in_rounds fuel ss ds).2.2.2.length ≤ fuel := by
  intro fuel
  induction fuel with
  | zero => intro ss ds; simp [split_data_in_rounds]
  | succ r ih =>
    intro ss ds
    rcases hp : ssplit_prime ss ds with ⟨pres, ss', ds'⟩
    cases pres with
    | none => simp [split_data_in_rounds, hp]
    | some pr =>
      cases pr with
      | error e => simp [split_data_in_rounds, hp]
      | ok u =>
        rcases hc : csplit_loop 0 ss' ds' with ⟨o, ss2, ds2, c⟩
        cases o with
        | done res => simp [split_data_in_rounds, hp, hc]
        | hung => simp [split_data_in_rounds, hp, hc]
        | giveup =>
          rcases hr : split_data_in_rounds r ss2 ds2 with ⟨res, ss3, ds3, stats⟩
          have := ih ss2 ds2
          rw [hr] at this
          simp only [split_data_in_rounds, hp, hc, hr]
          simp at this ⊢
          omega

lemma split_rounds_attempts_le :
    ∀ (fuel : Nat) (ss : List (Except UsbHostError Unit))
      (ds : List (Except UsbHostError Nat)),
      ∀ e ∈ (split_data_in_rounds fuel ss ds).2.2.2, e.attempts ≤ 5 := by
  intro fuel
  induction fuel with
  | zero => intro ss ds e he; simp [split_data_in_rounds] at he
  | succ r ih =>
    intro ss ds e he
    rcases hp : ssplit_prime ss ds with ⟨pres, ss', ds'⟩
    cases pres with
    | none =>
      simp [split_data_in_rounds, hp] at he
      simp [he, RoundEnd.attempts]
    | some pr =>
      cases pr with
      | error e2 =>
        simp [split_data_in_rounds, hp] at he
        simp [he, RoundEnd.attempts]
      | ok u =>
        rcases hc : csplit_loop 0 ss' ds' with ⟨o, ss2, ds2, c⟩
        have hclen : c.length ≤ 5 := by
          have := csplit_loop_consumed_le ss' 0 ds' (by omega)
          rw [hc] at this
          simpa using this
        cases o with
        | done res =>
          simp [split_data_in_rounds, hp, hc] at he
          simp [he, RoundEnd.attempts, hclen]
        | hung =>
          simp [split_data_in_rounds, hp, hc] at he
          simp [he, RoundEnd.attempts, hclen]
        | giveup =>
          rcases hr : split_data_in_rounds r ss2 ds2 with ⟨res, ss3, ds3, stats⟩
          simp only [split_data_in_rounds, hp, hc, hr] at he
          simp only [List.mem_cons] at he
          rcases he with rfl | he
          · simp [RoundEnd.attempts, hclen]
          · have := ih ss2 ds2 e
            rw [hr] at this
            exact this he

lemma split_rounds_exhaust :
    ∀ (fuel : Nat) (ss : List (Except UsbHostError Unit))
      (ds : List (Except UsbHostError Nat)),
      (∀ e ∈ (split_data_in_rounds fuel ss ds).2.2.2, e.gaveUpB = true) →
      (split_data_in_rounds fuel ss ds).2.2.2.length = fuel →
      (split_data_in_rounds fuel ss ds).1 = some (.error .STALL) := by
  intro fuel
  induction fuel with
  | zero => intro ss ds _ _; simp [split_data_in_rounds]
  | succ r ih =>
    intro ss ds hall hlen
    rcases hp : ssplit_prime ss ds with ⟨pres, ss', ds'⟩
    cases pres with
    | none => simp [split_data_in_rounds, hp, RoundEnd.gaveUpB] at hall
    | some pr =>
      cases pr with
      | error e2 =>
        simp [split_data_in_rounds, hp, RoundEnd.gaveUpB] at hall
      | ok u =>
        rcases hc : csplit_loop 0 ss' ds' with ⟨o, ss2, ds2, c⟩
        cases o with
        | done res =>
          simp [split_data_in_rounds, hp, hc, RoundEnd.gaveUpB] at hall
        | hung =>
          simp [split_data_in_rounds, hp, hc, RoundEnd.gaveUpB] at hall
        | giveup =>
          rcases hr : split_data_in_rounds r ss2 ds2 with ⟨res, ss3, ds3, stats⟩
          simp only [split_data_in_rounds, hp, hc, hr] at hall hlen ⊢
          simp only [List.length_cons] at hlen
          have hres := ih ss2 ds2 (by
            intro e he
            rw [hr] at he
            exact hall e (List.mem_cons_of_mem _ he))
            (by rw [hr]; show stats.length = r; omega)
          rw [hr] at hres
          exact hres

/-- C5: in `split_data_in`, every execution makes at most 5 CSPLIT IN
attempts per SSPLIT round (all attempts before the last of a phase are NYET
retries), at most 3 SSPLIT rounds in total, and when all 3 rounds exhaust
their CSPLIT budget the routine returns `STALL`. -/
theorem split_data_in_retry_policy :
    (∀ ss ds, (split_data_in ss ds).2.2.2.length ≤ 3) ∧
    (∀ ss ds, ∀ e ∈ (split_data_in ss ds).2.2.2, e.attempts ≤ 5) ∧
    (∀ ss count ds i, i + 1 < (csplit_loop count ss ds).2.2.2.length →
      (csplit_loop count ss ds).2.2.2.getD i (.ok 0) = .error .NYET) ∧
    (∀ ss ds, (∀ e ∈ (split_data_in ss ds).2.2.2, e.gaveUpB = true) →
      (split_data_in ss ds).2.2.2.length = 3 →
      (split_data_in ss ds).1 = some (.error .STALL)) :=
  ⟨fun ss ds => split_rounds_stats_le 3 ss ds,
   fun ss ds => split_rounds_attempts_le 3 ss ds,
   fun ss count ds i => csplit_loop_nyet_prefix ss count ds i,
   fun ss ds => split_rounds_exhaust 3 ss ds⟩

/-- Witness for C5 at a concrete input: SSPLITs always accepted, each round
primes and then sees 5 NYETs; after 3 rounds the result is STALL. -/
theorem split_data_in_retry_policy_witness :
    ((split_data_in (List.replicate 18 (Except.ok ()))
        ([Except.ok 0, .error .NYET, .error .NYET, .error .NYET, .error .NYET, .error .NYET] ++
         [Except.ok 0, .error .NYET, .error .NYET, .error .NYET, .error .NYET, .error .NYET] ++
         [Except.ok 0, .error .NYET, .error .NYET, .error .NYET, .error .NYET,
          .error .NYET])).2.2.2.length ≤ 3) ∧
    (split_data_in (List.replicate 18 (Except.ok ()))
        ([Except.ok 0, .error .NYET, .error .NYET, .error .NYET, .error .NYET, .error .NYET] ++
         [Except.ok 0, .error .NYET, .error .NYET, .error .NYET, .error .NYET, .error .NYET] ++
         [Except.ok 0, .error .NYET, .error .NYET, .error .NYET, .error .NYET,
          .error .NYET])).1 = some (.error .STALL) :=
  ⟨split_data_in_retry_policy.1 _ _,
   split_data_in_retry_policy.2.2.2 _ _ (by decide) (by decide)⟩

/-! ### Claim C3: the TRANSFER_TIMEOUT policy -/

/-- C3: the deadline policy of the transfer engine.  Both `data_in` and
`data_out` (direct and split) and the direct `setup` map an operation that
has not completed when the deadline fires to `TransferTimeout`; but `setup`
on a device behind a transaction translator returns `split_setup` *before*
racing the timer, so an unfinished split setup never produces
`TransferTimeout` — it just keeps running (first conjunct: concretely, three
accepted SSPLITs whose SETUPs are all NAKed leave the operation pending). -/
theorem transfer_timeout_policy :
    ((inner_setup (DevInfo.new 1 1 (some (1, 1)) .LowSpeed)
        [.error .NAK, .error .NAK, .error .NAK] [.ok (), .ok (), .ok ()]).1 = none) ∧
    (∀ dev stp ss, dev.transaction_translator ≠ none →
      (split_setup ss stp).1 = none → (inner_setup dev stp ss).1 = none) ∧
    (∀ dev ss, dev.transaction_translator = none →
      (inner_setup dev [] ss).1 = some (.error .TransferTimeout)) ∧
    (∀ dev ss ds, dev.transaction_translator ≠ none → (split_data_in ss ds).1 = none →
      (inner_data_in dev ss ds).1 = .error .TransferTimeout) ∧
    (∀ dev ss, dev.transaction_translator = none →
      (inner_data_in dev ss []).1 = .error .TransferTimeout) ∧
    (∀ dev ss os, dev.transaction_translator ≠ none → (split_data_out ss os).1 = none →
      (inner_data_out dev ss os).1 = .error .TransferTimeout) ∧
    (∀ dev ss, dev.transaction_translator = none →
      (inner_data_out dev ss []).1 = .error .TransferTimeout) := by
  refine ⟨rfl, ?_, ?_, ?_, ?_, ?_, ?_⟩
  · intro dev stp ss htt hsp
    rcases ho : dev.transaction_translator with _ | p
    · exact absurd ho htt
    · rcases hs : split_setup ss stp with ⟨r, a, b⟩
      rw [hs] at hsp
      simp only at hsp
      subst hsp
      simp [inner_setup, ho, hs]
  · intro dev ss htt
    simp [inner_setup, htt]
  · intro dev ss ds htt hsp
    rcases ho : dev.transaction_translator with _ | p
    · exact absurd ho htt
    · rcases hs : split_data_in ss ds with ⟨r, a, b, st⟩
      rw [hs] at hsp
      simp only at hsp
      subst hsp
      simp [inner_data_in, ho, hs]
  · intro dev ss htt
    simp [inner_data_in, htt]
  · intro dev ss os htt hsp
    rcases ho : dev.transaction_translator with _ | p
    · exact absurd ho htt
    · rcases hs : split_data_out ss os with ⟨r, a, b⟩
      rw [hs] at hsp
      simp only at hsp
      subst hsp
      simp [inner_data_out, ho, hs]
  · intro dev ss htt
    simp [inner_data_out, htt]

/-- Witness for C3 at concrete inputs: an empty observation window produces
`TransferTimeout` on the direct paths and on the split data paths. -/
theorem transfer_timeout_policy_witness :
    ((⟨PortInfo.new 0x81 1, none, .FullSpeed⟩ : DevInfo).transaction_translator = none) ∧
    (inner_setup ⟨PortInfo.new 0x81 1, none, .FullSpeed⟩ []
      []).1 = some (.error .TransferTimeout) ∧
    (inner_data_in ⟨PortInfo.new 0x81 1, none, .FullSpeed⟩ []
      []).1 = .error .TransferTimeout ∧
    (inner_data_in (DevInfo.new 1 1 (some (1, 1)) .LowSpeed) []
      []).1 = .error .TransferTimeout ∧
    (inner_data_out (DevInfo.new 1 1 (some (1, 1)) .LowSpeed) []
      []).1 = .error .TransferTimeout :=
  ⟨rfl,
   transfer_timeout_policy.2.2.1 _ [] rfl,
   transfer_timeout_policy.2.2.2.2.1 _ [] rfl,
   transfer_timeout_policy.2.2.2.1 _ [] [] (by simp [DevInfo.new]) rfl,
   transfer_timeout_policy.2.2.2.2.2.1 _ [] [] (by simp [DevInfo.new]) rfl⟩

/-! ### Claim C4: NAK never surfaces from control transfers -/

lemma data_in_with_retry_no_nak (dev : DevInfo) :
    ∀ fuel ss ds, (data_in_with_retry dev fuel ss ds).1 ≠ some (.error .NAK) := by
  intro fuel
  induction fuel with
  | zero => intro ss ds; simp [data_in_with_retry]
  | succ f ih =>
    intro ss ds
    rcases h : inner_data_in dev ss ds with ⟨r, ss', ds'⟩
    cases r with
    | ok n => simp [data_in_with_retry, h]
    | error e =>
      cases e
      case NAK =>
        simp only [data_in_with_retry, h]
        exact ih ss' ds'
      all_goals simp [data_in_with_retry, h]

lemma data_out_with_retry_no_nak (dev : DevInfo) :
    ∀ fuel ss os, (data_out_with_retry dev fuel ss os).1 ≠ some (.error .NAK) := by
  intro fuel
  induction fuel with
  | zero => intro ss os; simp [data_out_with_retry]
  | succ f ih =>
    intro ss os
    rcases h : inner_data_out dev ss os with ⟨r, ss', os'⟩
    cases r with
    | ok n => simp [data_out_with_retry, h]
    | error e =>
      cases e
      case NAK =>
        simp only [data_out_with_retry, h]
        exact ih ss' os'
      all_goals simp [data_out_with_retry, h]

lemma split_setup_phases_no_nak :
    ∀ (ss : List (Except UsbHostError Unit)) (c : Bool)
      (stp : List (Except UsbHostError Unit)),
      (Except.error .NAK : Except UsbHostError Unit) ∉ ss →
      (Except.error .NAK : Except UsbHostError Unit) ∉ stp →
      (split_setup_ssplit_csplit c ss stp).1 ≠ some (.error .NAK) := by
  intro ss
  induction ss with
  | nil => intro c stp h1 h2; simp [split_setup_ssplit_csplit]
  | cons s ss ih =>
    intro c stp h1 h2
    cases s with
    | error e =>
      simp only [split_setup_ssplit_csplit]
      intro heq
      simp only [Option.some.injEq] at heq
      rw [heq] at h1
      exact h1 (List.mem_cons_self _ _)
    | ok u =>
      have h1' := fun hmem => h1 (List.mem_cons_of_mem _ hmem)
      cases stp with
      | nil => simp [split_setup_ssplit_csplit]
      | cons t stp =>
        have h2' := fun hmem => h2 (List.mem_cons_of_mem _ hmem)
        cases t with
        | ok v =>
          cases c with
          | true => simp [split_setup_ssplit_csplit]
          | false =>
            simp only [split_setup_ssplit_csplit]
            exact ih true stp h1' h2'
        | error e =>
          cases e
          case NAK => exact absurd (List.mem_cons_self (Except.error UsbHostError.NAK) stp) h2
          case NYET =>
            cases c with
            | true =>
              simp only [split_setup_ssplit_csplit]
              exact ih true stp h1' h2'
            | false => simp [split_setup_ssplit_csplit]
          all_goals cases c <;> simp [split_setup_ssplit_csplit]

lemma inner_setup_no_nak (dev : DevInfo) (stp ss : List (Except UsbHostError Unit))
    (h1 : (Except.error .NAK : Except UsbHostError Unit) ∉ stp)
    (h2 : (Except.error .NAK : Except UsbHostError Unit) ∉ ss) :
    (inner_setup dev stp ss).1 ≠ some (.error .NAK) := by
  rcases ho : dev.transaction_translator with _ | p
  · cases stp with
    | nil => simp [inner_setup, ho]
    | cons t ts =>
      simp only [inner_setup, ho]
      intro heq
      simp only [Option.some.injEq] at heq
      rw [heq] at h1
      exact h1 (List.mem_cons_self _ _)
  · rcases hs : split_setup ss stp with ⟨r, a, b⟩
    have hnn := split_setup_phases_no_nak ss false stp h2 h1
    unfold split_setup at hs
    rw [hs] at hnn
    simp only at hnn
    simp only [inner_setup, ho]
    unfold split_setup
    rw [hs]
    simpa using hnn

lemma control_data_loop_no_nak (dev : DevInfo) (mps : Nat) :
    ∀ fuel tog bytes ss ds tr,
      (control_data_loop dev mps fuel tog bytes ss ds tr).1 ≠ some (.error .NAK) := by
  intro fuel
  induction fuel with
  | zero => intro tog bytes ss ds tr; simp [control_data_loop]
  | succ f ih =>
    intro tog bytes ss ds tr
    rcases h : data_in_with_retry dev (ss.length + ds.length + 1) ss ds with ⟨r, ss', ds'⟩
    cases r with
    | none => simp [control_data_loop, h]
    | some r2 =>
      cases r2 with
      | error e =>
        simp [control_data_loop, h]
        intro heq
        rw [heq] at h
        have := data_in_with_retry_no_nak dev (ss.length + ds.length + 1) ss ds
        rw [h] at this
        exact this rfl
      | ok len =>
        by_cases hlt : len < mps
        · simp [control_data_loop, h, hlt]
        · simp only [control_data_loop, h, hlt, if_false]
          exact ih tog.next (bytes + len) ss' ds' (tr ++ [tog])

/-- C4 (amended): the data and status stages of a control transfer retry NAK
internally and never surface it; the setup stage retries NAK only on the
SSPLIT-phase SETUP — a NAK produced by the direct setup primitive, by the
SPLIT-token primitive, or by the CSPLIT completion is returned to the
caller.  Hence `control_transfer` never returns NAK when the setup-stage
primitive streams (`stp` for setup tokens, `ss` for split tokens) contain no
NAK, whatever the data and status streams contain. -/
theorem control_transfer_nak_confinement (h : DeviceHandle) (req : Request)
    (stp ss : List (Except UsbHostError Unit)) (ds : List (Except UsbHostError Nat))
    (os : List (Except UsbHostError Unit))
    (hstp : (Except.error .NAK : Except UsbHostError Unit) ∉ stp)
    (hss : (Except.error .NAK : Except UsbHostError Unit) ∉ ss) :
    (control_transfer h req stp ss ds os).1 ≠ some (.error .NAK) := by
  rcases hsu : inner_setup h.dev_info stp ss with ⟨r, a, b⟩
  cases r with
  | none => simp [control_transfer, hsu]
  | some r2 =>
    cases r2 with
    | error e =>
      simp [control_transfer, hsu]
      intro heq
      have := inner_setup_no_nak h.dev_info stp ss hstp hss
      rw [hsu, heq] at this
      exact this rfl
    | ok u =>
      have hdata : ∀ (dres : Option (Except UsbHostError Nat) ×
          List (Except UsbHostError Unit) × List (Except UsbHostError Nat) × List DataTog),
          (dres = if 0 < req.length then
            match req.direction with
            | .HostToDevice => (none, b, ds, [])
            | .DeviceToHost =>
              control_data_loop h.dev_info h.max_packet_size (ds.length + 1) .DATA1 0 b ds []
          else (some (.ok 0), b, ds, [])) → dres.1 ≠ some (.error .NAK) := by
        intro dres hd
        by_cases hl : 0 < req.length
        · rw [hd]
          simp only [hl, if_true]
          cases req.direction with
          | HostToDevice => simp
          | DeviceToHost => exact control_data_loop_no_nak h.dev_info h.max_packet_size _ _ _ _ _ _
        · rw [hd]; simp [hl]
      rcases hd : (if 0 < req.length then
          match req.direction with
          | .HostToDevice => (none, b, ds, [])
          | .DeviceToHost =>
            control_data_loop h.dev_info h.max_packet_size (ds.length + 1) .DATA1 0 b ds []
        else (some (.ok 0), b, ds, ([] : List DataTog))) with ⟨dr, ss2, ds2, tr⟩
      have hdr : dr ≠ some (.error .NAK) := by
        have := hdata (dr, ss2, ds2, tr) hd.symm
        simpa using this
      simp only [control_transfer, hsu]
      rw [hd]
      cases dr with
      | none => simp
      | some dr2 =>
        cases dr2 with
        | error e =>
          simp only
          intro heq
          rw [heq] at hdr
          exact hdr rfl
        | ok bytes =>
          cases hdir : req.direction with
          | HostToDevice =>
            rcases hst : data_in_with_retry h.dev_info (ss2.length + ds2.length + 1) ss2 ds2
              with ⟨sr, x, y⟩
            cases sr with
            | none => simp [hst]
            | some sr2 =>
              cases sr2 with
              | error e =>
                simp [hst]
                intro heq
                have := data_in_with_retry_no_nak h.dev_info (ss2.length + ds2.length + 1) ss2 ds2
                rw [hst, heq] at this
                exact this rfl
              | ok v => simp [hst]
          | DeviceToHost =>
            rcases hst : data_out_with_retry h.dev_info (ss2.length + os.length + 1) ss2 os
              with ⟨sr, x, y⟩
            cases sr with
            | none => simp [hst]
            | some sr2 =>
              cases sr2 with
              | error e =>
                simp [hst]
                intro heq
                have := data_out_with_retry_no_nak h.dev_info (ss2.length + os.length + 1) ss2 os
                rw [hst, heq] at this
                exact this rfl
              | ok v => simp [hst]

/-- Witness for C4 at a concrete input: NAK-free setup streams, one NAK in
the data stream that the engine retries away. -/
theorem control_transfer_nak_confinement_witness :
    ((Except.error .NAK : Except UsbHostError Unit) ∉ ([.ok ()] : List (Except UsbHostError Unit))) ∧
    ((Except.error .NAK : Except UsbHostError Unit) ∉ ([] : List (Except UsbHostError Unit))) ∧
    (control_transfer ⟨1, 8, ⟨PortInfo.new 0x81 1, none, .FullSpeed⟩⟩ ⟨.DeviceToHost, 0, 4⟩
      [.ok ()] [] [.error .NAK, .ok 3] [.ok ()]).1 ≠ some (.error .NAK) :=
  ⟨by simp, List.not_mem_nil _,
   control_transfer_nak_confinement _ _ _ _ _ _ (by simp) (List.not_mem_nil _)⟩

/-- C4 counterexample to the claim as stated: the setup stage does not retry
NAK — a NAK returned by the direct setup primitive is surfaced to the
control-transfer caller. -/
theorem control_transfer_nak_cex :
    (control_transfer ⟨1, 8, ⟨PortInfo.new 0x81 1, none, .FullSpeed⟩⟩ ⟨.DeviceToHost, 0, 0⟩
      [.error .NAK] [] [] []).1 = some (.error .NAK) := rfl

/-! ### Claim C6: the data-toggle discipline -/

lemma DataTog.next_next (t : DataTog) : t.next.next = t := by
  cases t <;> rfl

lemma altSeq_getD :
    ∀ (n k : Nat) (t : DataTog), k < n →
      (altSeq t n).getD k .DATA0 = (if k % 2 = 0 then t else t.next) := by
  intro n
  induction n with
  | zero => intro k t h; omega
  | succ m ih =>
    intro k t h
    cases k with
    | zero => simp [altSeq]
    | succ j =>
      simp only [altSeq, List.getD_cons_succ]
      rw [ih j t.next (by omega)]
      by_cases hj : j % 2 = 0
      · have h1 : (j + 1) % 2 ≠ 0 := by omega
        simp [hj, h1]
      · have h1 : (j + 1) % 2 = 0 := by omega
        simp [hj, h1, DataTog.next_next]

lemma control_data_loop_trace (dev : DevInfo) (mps : Nat) :
    ∀ fuel tog bytes ss ds tr,
      ∃ n, (control_data_loop dev mps fuel tog bytes ss ds tr).2.2.2 =
        tr ++ altSeq tog n := by
  intro fuel
  induction fuel with
  | zero =>
    intro tog bytes ss ds tr
    exact ⟨0, by simp [control_data_loop, altSeq]⟩
  | succ f ih =>
    intro tog bytes ss ds tr
    rcases h : data_in_with_retry dev (ss.length + ds.length + 1) ss ds with ⟨r, ss', ds'⟩
    cases r with
    | none => exact ⟨0, by simp [control_data_loop, h, altSeq]⟩
    | some r2 =>
      cases r2 with
      | error e => exact ⟨0, by simp [control_data_loop, h, altSeq]⟩
      | ok len =>
        by_cases hlt : len < mps
        · exact ⟨1, by simp [control_data_loop, h, hlt, altSeq]⟩
        · obtain ⟨n, hn⟩ := ih tog.next (bytes + len) ss' ds' (tr ++ [tog])
          refine ⟨n + 1, ?_⟩
          simp only [control_data_loop, h, hlt, if_false]
          rw [hn]
          simp [altSeq]

lemma control_transfer_trace (h : DeviceHandle) (req : Request)
    (stp ss : List (Except UsbHostError Unit)) (ds : List (Except UsbHostError Nat))
    (os : List (Except UsbHostError Unit)) :
    (∃ n, (control_transfer h req stp ss ds os).2.1 = altSeq .DATA1 n) ∧
    ((control_transfer h req stp ss ds os).2.2 = none ∨
      (control_transfer h req stp ss ds os).2.2 = some .DATA1) := by
  rcases hsu : inner_setup h.dev_info stp ss with ⟨r, a, b⟩
  cases r with
  | none => exact ⟨⟨0, by simp [control_transfer, hsu, altSeq]⟩, by simp [control_transfer, hsu]⟩
  | some r2 =>
    cases r2 with
    | error e =>
      exact ⟨⟨0, by simp [control_transfer, hsu, altSeq]⟩, by simp [control_transfer, hsu]⟩
    | ok u =>
      have htr : ∃ n, (if 0 < req.length then
          match req.direction with
          | .HostToDevice => (none, b, ds, [])
          | .DeviceToHost =>
            control_data_loop h.dev_info h.max_packet_size (ds.length + 1) .DATA1 0 b ds []
        else (some (.ok 0), b, ds, ([] : List DataTog))).2.2.2 = altSeq .DATA1 n := by
        by_cases hl : 0 < req.length
        · simp only [hl, if_true]
          cases req.direction with
          | HostToDevice => exact ⟨0, by simp [altSeq]⟩
          | DeviceToHost =>
            obtain ⟨n, hn⟩ :=
              control_data_loop_trace h.dev_info h.max_packet_size (ds.length + 1) .DATA1 0 b ds []
            exact ⟨n, by simpa using hn⟩
        · exact ⟨0, by simp [hl, altSeq]⟩
      rcases hd : (if 0 < req.length then
          match req.direction with
          | .HostToDevice => (none, b, ds, [])
          | .DeviceToHost =>
            control_data_loop h.dev_info h.max_packet_size (ds.length + 1) .DATA1 0 b ds []
        else (some (.ok 0), b, ds, ([] : List DataTog))) with ⟨dr, ss2, ds2, tr⟩
      obtain ⟨n, hn⟩ := htr
      rw [hd] at hn
      simp only at hn
      subst hn
      have hgoal : (control_transfer h req stp ss ds os).2.1 = altSeq .DATA1 n ∧
          ((control_transfer h req stp ss ds os).2.2 = none ∨
            (control_transfer h req stp ss ds os).2.2 = some .DATA1) := by
        simp only [control_transfer, hsu]
        rw [hd]
        cases dr with
        | none => simp
        | some dr2 =>
          cases dr2 with
          | error e => simp
          | ok bytes =>
            cases req.direction with
            | HostToDevice =>
              rcases hst : data_in_with_retry h.dev_info (ss2.length + ds2.length + 1) ss2 ds2
                with ⟨sr, x, y⟩
              cases sr with
              | none => simp [hst]
              | some sr2 => cases sr2 <;> simp [hst]
            | DeviceToHost =>
              rcases hst : data_out_with_retry h.dev_info (ss2.length + os.length + 1) ss2 os
                with ⟨sr, x, y⟩
              cases sr with
              | none => simp [hst]
              | some sr2 => cases sr2 <;> simp [hst]
      exact ⟨⟨n, hgoal.1⟩, hgoal.2⟩

/-- C6: in every control transfer the successful data-stage IN transactions
use toggles DATA1, DATA0, DATA1, ... (the toggle trace is an alternating
sequence started at DATA1, third conjunct giving the alternation pointwise);
the status stage always uses DATA1; and an interrupt transfer advances the
channel toggle exactly when it returns success. -/
theorem toggle_discipline :
    (∀ h req stp ss ds os,
      ∃ n, (control_transfer h req stp ss ds os).2.1 = altSeq .DATA1 n) ∧
    (∀ h req stp ss ds os,
      (control_transfer h req stp ss ds os).2.2 = none ∨
      (control_transfer h req stp ss ds os).2.2 = some .DATA1) ∧
    (∀ t n k, k < n → (altSeq t n).getD k .DATA0 = (if k % 2 = 0 then t else t.next)) ∧
    (∀ chan ss ds os n, (interrupt_transfer chan ss ds os).1 = .ok n →
      (interrupt_transfer chan ss ds os).2.tog = chan.tog.next ∧
      (interrupt_transfer chan ss ds os).2.tog ≠ chan.tog) ∧
    (∀ chan ss ds os e, (interrupt_transfer chan ss ds os).1 = .error e →
      (interrupt_transfer chan ss ds os).2.tog = chan.tog) := by
  refine ⟨fun h req stp ss ds os => (control_transfer_trace h req stp ss ds os).1,
    fun h req stp ss ds os => (control_transfer_trace h req stp ss ds os).2,
    fun t n k hk => altSeq_getD n k t hk, ?_, ?_⟩
  · intro chan ss ds os n hok
    unfold interrupt_transfer at hok ⊢
    rcases hres : (match chan.endpoint_direction with
      | .In => (inner_data_in chan.device_handle.dev_info ss ds).1
      | .Out => (inner_data_out chan.device_handle.dev_info ss os).1.map (fun _ => 0)) with
      e2 | n2
    · rw [hres] at hok
      simp at hok
    · rw [hres] at hok ⊢
      exact ⟨rfl, by cases htog : chan.tog <;> simp [htog, DataTog.next]⟩
  · intro chan ss ds os e herr
    unfold interrupt_transfer at herr ⊢
    rcases hres : (match chan.endpoint_direction with
      | .In => (inner_data_in chan.device_handle.dev_info ss ds).1
      | .Out => (inner_data_out chan.device_handle.dev_info ss os).1.map (fun _ => 0)) with
      e2 | n2
    · rw [hres] at herr ⊢
    · rw [hres] at herr
      simp at herr

/-- Witness for C6 at a concrete input: a direct transfer with two full
chunks and a short one uses toggles DATA1, DATA0, DATA1; position 1 of that
trace is DATA0; a successful interrupt IN flips the channel toggle. -/
theorem toggle_discipline_witness :
    (∃ n, (control_transfer ⟨1, 8, ⟨PortInfo.new 0x81 1, none, .FullSpeed⟩⟩
      ⟨.DeviceToHost, 0, 18⟩ [.ok ()] [] [.ok 8, .ok 8, .ok 3] [.ok ()]).2.1 =
        altSeq .DATA1 n) ∧
    ((altSeq .DATA1 3).getD 1 .DATA0 = (if 1 % 2 = 0 then DataTog.DATA1 else DataTog.DATA1.next)) ∧
    ((interrupt_transfer ⟨⟨1, 8, ⟨PortInfo.new 0x81 1, none, .FullSpeed⟩⟩, 1, .In, .DATA0⟩
        [] [.ok 4] []).1 = .ok 4) ∧
    ((interrupt_transfer ⟨⟨1, 8, ⟨PortInfo.new 0x81 1, none, .FullSpeed⟩⟩, 1, .In, .DATA0⟩
        [] [.ok 4] []).2.tog = DataTog.DATA0.next) :=
  ⟨toggle_discipline.1 _ _ _ _ _ _,
   toggle_discipline.2.2.1 .DATA1 3 1 (by omega),
   rfl,
   (toggle_discipline.2.2.2.1
     ⟨⟨1, 8, ⟨PortInfo.new 0x81 1, none, .FullSpeed⟩⟩, 1, .In, .DATA0⟩
     [] [.ok 4] [] 4 rfl).1⟩

/-! ### Claim C7: assign_device_address frees the reservation on failure -/

lemma set_getD_self {α : Type} {l : List α} {i : Nat} {d : α} (hi : i < l.length) :
    l.set i (l.getD i d) = l := by
  apply List.ext_getElem?
  intro j
  rw [List.getElem?_set]
  by_cases hij : i = j
  · subst hij
    rw [if_pos rfl, if_pos hi, List.getD_eq_getElem?_getD, List.getElem?_eq_getElem hi]
    rfl
  · rw [if_neg hij]

/-- C7: `assign_device_address` allocates first and then issues a Set_Address
targeted at address 0 whose `value` is the freshly allocated address (the
ghost trace records the (target, value) pair of the setup stage); on any
failure of the Set_Address exchange the reserved address is freed, so on an
error result the table equals its state before the call.  The hypothesis
states that empty slots hold `PortInfo::invalid` — true of every reachable
table, whose slots are only ever written by `alloc_device_address` (non-empty
parent ports) or reset to `PortInfo::invalid`. -/
theorem assign_device_address_spec (m : DeviceAddressManager) (mps : Nat)
    (devinfo : DevInfo) (stp ss : List (Except UsbHostError Unit))
    (ds : List (Except UsbHostError Nat))
    (hWf : ∀ i, i < m.info.length →
      (m.info.getD i PortInfo.invalid).is_empty = true →
      m.info.getD i PortInfo.invalid = PortInfo.invalid) :
    (∀ e, (assign_device_address m mps devinfo stp ss ds).1 = some (.error e) →
      (assign_device_address m mps devinfo stp ss ds).2.1 = m) ∧
    (∀ hdl m1, m.alloc_device_address mps devinfo = some (hdl, m1) →
      (assign_device_address m mps devinfo stp ss ds).2.2 = [(0, hdl.address)]) := by
  rcases ha : m.alloc_device_address mps devinfo with _ | ⟨hdl, m1⟩
  · constructor
    · intro e he
      rw [show assign_device_address m mps devinfo stp ss ds = (none, m, []) from by
        simp [assign_device_address, ha]] at he
      exact absurd he (by simp)
    · intro hdl m1 halloc
      exact absurd halloc (by simp)
  · obtain ⟨i, hlt, hempty, hh, hm1⟩ := alloc_some_spec ha
    have hfree : m1.free_address hdl = m := by
      unfold DeviceAddressManager.free_address
      rw [hh]
      show (⟨m1.info.set (i + 1 - 1) PortInfo.invalid⟩ : DeviceAddressManager) = m
      have hi1 : i + 1 - 1 = i := by omega
      rw [hi1, hm1, List.set_set]
      have hinv : PortInfo.invalid = m.info.getD i PortInfo.invalid :=
        (hWf i hlt hempty).symm
      rw [hinv, set_getD_self hlt]
    rcases hsu : inner_setup devinfo stp ss with ⟨r, a, b⟩
    cases r with
    | none =>
      constructor
      · intro e he
        rw [show assign_device_address m mps devinfo stp ss ds = (none, m1, [(0, hdl.address)])
          from by simp [assign_device_address, ha, hsu]] at he
        exact absurd he (by simp)
      · intro hdl2 m2 halloc
        obtain ⟨h1, h2⟩ : hdl = hdl2 ∧ m1 = m2 := by simpa using halloc
        simp [assign_device_address, ha, hsu, h1.symm]
    | some r2 =>
      cases r2 with
      | error e2 =>
        constructor
        · intro e he
          rw [show assign_device_address m mps devinfo stp ss ds =
            (some (.error e2), m1.free_address hdl, [(0, hdl.address)]) from by
              simp [assign_device_address, ha, hsu]] at he
          rw [show assign_device_address m mps devinfo stp ss ds =
            (some (.error e2), m1.free_address hdl, [(0, hdl.address)]) from by
              simp [assign_device_address, ha, hsu]]
          exact hfree
        · intro hdl2 m2 halloc
          obtain ⟨h1, h2⟩ : hdl = hdl2 ∧ m1 = m2 := by simpa using halloc
          simp [assign_device_address, ha, hsu, h1.symm]
      | ok u =>
        rcases hst : data_in_with_retry devinfo (b.length + ds.length + 1) b ds with ⟨sr, x, y⟩
        cases sr with
        | none =>
          constructor
          · intro e he
            rw [show assign_device_address m mps devinfo stp ss ds =
              (none, m1, [(0, hdl.address)]) from by
                simp [assign_device_address, ha, hsu, hst]] at he
            exact absurd he (by simp)
          · intro hdl2 m2 halloc
            obtain ⟨h1, h2⟩ : hdl = hdl2 ∧ m1 = m2 := by simpa using halloc
            simp [assign_device_address, ha, hsu, hst, h1.symm]
        | some sr2 =>
          cases sr2 with
          | error e2 =>
            constructor
            · intro e he
              rw [show assign_device_address m mps devinfo stp ss ds =
                (some (.error e2), m1.free_address hdl, [(0, hdl.address)]) from by
                  simp [assign_device_address, ha, hsu, hst]]
              exact hfree
            · intro hdl2 m2 halloc
              obtain ⟨h1, h2⟩ : hdl = hdl2 ∧ m1 = m2 := by simpa using halloc
              simp [assign_device_address, ha, hsu, hst, h1.symm]
          | ok v =>
            constructor
            · intro e he
              rw [show assign_device_address m mps devinfo stp ss ds =
                (some (.ok hdl), m1, [(0, hdl.address)]) from by
                  simp [assign_device_address, ha, hsu, hst]] at he
              exact absurd he (by simp)
            · intro hdl2 m2 halloc
              obtain ⟨h1, h2⟩ : hdl = hdl2 ∧ m1 = m2 := by simpa using halloc
              simp [assign_device_address, ha, hsu, hst, h1.symm]

/-- Witness for C7 at a concrete input: a one-slot table; the status stage
STALLs, the table is restored, and the setup stage targeted address 0
carrying the freshly allocated address 1. -/
theorem assign_device_address_spec_witness :
    ((assign_device_address ⟨[PortInfo.invalid]⟩ 8 (DevInfo.root_device .FullSpeed)
        [.ok ()] [] [.error .STALL]).1 = some (.error .STALL)) ∧
    ((assign_device_address ⟨[PortInfo.invalid]⟩ 8 (DevInfo.root_device .FullSpeed)
        [.ok ()] [] [.error .STALL]).2.1 = ⟨[PortInfo.invalid]⟩) ∧
    ((assign_device_address ⟨[PortInfo.invalid]⟩ 8 (DevInfo.root_device .FullSpeed)
        [.ok ()] [] [.error .STALL]).2.2 = [(0, 1)]) := by
  have hspec := assign_device_address_spec ⟨[PortInfo.invalid]⟩ 8
    (DevInfo.root_device .FullSpeed) [.ok ()] [] [.error .STALL]
    (by
      intro i hi _
      cases i with
      | zero => rfl
      | succ j => exact absurd hi (by simp))
  refine ⟨rfl, hspec.1 .STALL rfl, ?_⟩
  have := hspec.2 ⟨1, 8, DevInfo.root_device .FullSpeed⟩
    ⟨[(DevInfo.root_device .FullSpeed).port]⟩ (by decide)
  simpa using this

/-! ### Claim C2: the transaction translator of a hub child -/

/-- Embeds the `change.reset()` attach arm of `Hub::on_status_change`
(`driver/hub.rs` lines 301-306): when the reset-change bit is set and the
reset status has cleared, the hub emits
`DeviceAttach(DevInfo::new(self.handle.address(), port, status.speed()))`.
That call passes no transaction-translator argument at all (`DevInfo::new`
in `types.rs` has a fourth `transaction_translator` parameter), and
`on_status_change` computes none, so the emitted `DevInfo` carries no TT. -/
def hub_attach_dev_info (hub_addr port : Nat) (child_speed : UsbSpeed) : DevInfo :=
  DevInfo.new hub_addr port none child_speed

/-- C2: the attach event constructed by the hub driver on a cleared reset
carries no transaction translator — for every hub address, port and child
speed.  In particular for a High-speed hub at address 1 with a Low-speed
child on port 2 (where the claim and spec §4.6 require the TT `(1, 2)`), the
emitted `DevInfo` has `transaction_translator = none ≠ some (1, 2)`. -/
theorem hub_attach_no_tt :
    (∀ hub_addr port speed,
      (hub_attach_dev_info hub_addr port speed).transaction_translator = none) ∧
    (hub_attach_dev_info 1 2 .LowSpeed).transaction_translator ≠ some (1, 2) :=
  ⟨fun _ _ _ => rfl, by simp [hub_attach_dev_info, DevInfo.new]⟩

/-! ### Claim C1: union-find correctness of free_subtree

Spec-side notions for the parent arrays of `free_subtree`'s union-find:
`pget` is the array read `parent[x]` (as `ufFind` performs it), `pchain` the
iterated parent pointer, `RootsTo p x r` says the chain from `x` reaches the
fixpoint `r`. -/

/-- Array read as performed by `ufFind`. -/
def pget (p : List Nat) (x : Nat) : Nat := p.getD x x

/-- Iterated parent pointer. -/
def pchain (p : List Nat) (x : Nat) : Nat → Nat
  | 0 => x
  | k + 1 => pchain p (pget p x) k

/-- A fixpoint of the parent array. -/
def IsRootP (p : List Nat) (x : Nat) : Prop := pget p x = x

/-- The chain from `x` reaches the fixpoint `r`. -/
def RootsTo (p : List Nat) (x r : Nat) : Prop :=
  (∃ k, pchain p x k = r) ∧ IsRootP p r

/-- Every entry of the parent array is an index, and every index has a root. -/
def WFp (p : List Nat) : Prop :=
  (∀ a ∈ p, a < p.length) ∧ ∀ x, x < p.length → ∃ r, RootsTo p x r

/-- The root map of `p` is contained in that of `q`. -/
def RootMapLE (p q : List Nat) : Prop := ∀ j r, RootsTo p j r → RootsTo q j r

lemma pchain_succ_end (p : List Nat) (x : Nat) :
    ∀ k, pchain p x (k + 1) = pget p (pchain p x k) := by
  intro k
  induction k generalizing x with
  | zero => rfl
  | succ j ih => exact ih (pget p x)

lemma pchain_add (p : List Nat) (x : Nat) (a : Nat) :
    ∀ b, pchain p x (a + b) = pchain p (pchain p x a) b := by
  intro b
  induction b with
  | zero => rfl
  | succ c ih => rw [show a + (c + 1) = (a + c) + 1 from rfl, pchain_succ_end, ih,
      ← pchain_succ_end]

lemma pchain_of_root {p : List Nat} {r : Nat} (h : IsRootP p r) :
    ∀ t, pchain p r t = r := by
  intro t
  induction t with
  | zero => rfl
  | succ u ih => rw [pchain_succ_end, ih, h]

lemma rootsTo_unique {p : List Nat} {x r1 r2 : Nat}
    (h1 : RootsTo p x r1) (h2 : RootsTo p x r2) : r1 = r2 := by
  obtain ⟨⟨k1, hk1⟩, hr1⟩ := h1
  obtain ⟨⟨k2, hk2⟩, hr2⟩ := h2
  rcases Nat.le_total k1 k2 with hle | hle
  · obtain ⟨d, hd⟩ := Nat.le.dest hle
    rw [← hd, pchain_add, hk1, pchain_of_root hr1] at hk2
    exact hk2
  · obtain ⟨d, hd⟩ := Nat.le.dest hle
    rw [← hd, pchain_add, hk2, pchain_of_root hr2] at hk1
    exact hk1.symm

lemma rootsTo_self {p : List Nat} {r : Nat} (h : IsRootP p r) : RootsTo p r r :=
  ⟨⟨0, rfl⟩, h⟩

lemma rootsTo_step {p : List Nat} {x r : Nat} (h : RootsTo p (pget p x) r) :
    RootsTo p x r := by
  obtain ⟨⟨k, hk⟩, hr⟩ := h
  exact ⟨⟨k + 1, by rw [show pchain p x (k + 1) = pchain p (pget p x) k from rfl, hk]⟩, hr⟩

lemma rootsTo_of_step {p : List Nat} {x r : Nat} (hx : ¬ IsRootP p x)
    (h : RootsTo p x r) : RootsTo p (pget p x) r := by
  obtain ⟨⟨k, hk⟩, hr⟩ := h
  cases k with
  | zero =>
    exact absurd (show IsRootP p x from by rw [show x = pchain p x 0 from rfl, hk]; exact hr) hx
  | succ j =>
    exact ⟨⟨j, hk⟩, hr⟩

lemma rootsTo_root {p : List Nat} {x r : Nat} (h : RootsTo p x r) : RootsTo p r r :=
  rootsTo_self h.2

lemma pchain_mem_lt {p : List Nat} (hb : ∀ a ∈ p, a < p.length) {x : Nat}
    (hx : x < p.length) : ∀ k, pchain p x k < p.length := by
  intro k
  induction k generalizing x with
  | zero => exact hx
  | succ j ih =>
    show pchain p (pget p x) j < p.length
    refine ih ?_
    unfold pget
    rw [List.getD_eq_getElem?_getD, List.getElem?_eq_getElem hx]
    exact hb _ (List.getElem_mem hx)

/-- In a bounded array, a rooted index reaches its root within fewer than
`p.length` steps. -/
lemma rootsTo_depth_lt {p : List Nat} (hb : ∀ a ∈ p, a < p.length) {x r : Nat}
    (hx : x < p.length) (h : RootsTo p x r) :
    ∃ k, k < p.length ∧ pchain p x k = r := by
  obtain ⟨⟨k0, hk0⟩, hr⟩ := h
  have hex : ∃ k, pchain p x k = r := ⟨k0, hk0⟩
  classical
  have hmin := Nat.find_spec hex
  set km := Nat.find hex with hkm
  by_cases hlt : km < p.length
  · exact ⟨km, hlt, hmin⟩
  · exfalso
    push_neg at hlt
    have hmaps : ∀ i ∈ Finset.range (p.length + 1), pchain p x i ∈ Finset.range p.length := by
      intro i _
      exact Finset.mem_range.mpr (pchain_mem_lt hb hx i)
    have hcard : (Finset.range p.length).card < (Finset.range (p.length + 1)).card := by
      simp
    obtain ⟨i, hi, j, hj, hij, heq⟩ :=
      Finset.exists_ne_map_eq_of_card_lt_of_maps_to hcard hmaps
    rw [Finset.mem_range] at hi hj
    rcases Nat.lt_or_ge i j with hlt2 | hge
    · have hjk : j ≤ km := by omega
      obtain ⟨d, hd⟩ := Nat.le.dest hjk
      have hshift : pchain p x (i + d) = r := by
        rw [pchain_add, heq, ← pchain_add, hd, hmin]
      have : i + d < km := by omega
      exact absurd (Nat.find_min hex this) (by simp [hshift])
    · have hlt2 : j < i := by omega
      have hik : i ≤ km := by omega
      obtain ⟨d, hd⟩ := Nat.le.dest hik
      have hshift : pchain p x (j + d) = r := by
        rw [pchain_add, ← heq, ← pchain_add, hd, hmin]
      have : j + d < km := by omega
      exact absurd (Nat.find_min hex this) (by simp [hshift])

lemma ufFind_succ (f : Nat) (p : List Nat) (x : Nat) :
    ufFind (f + 1) p x =
      if pget p x ≠ x then
        ((ufFind f p (pget p x)).1.set x (ufFind f p (pget p x)).2,
          (ufFind f p (pget p x)).2)
      else (p, x) := rfl

lemma ufFind_succ_fst_root {f : Nat} {p : List Nat} {x : Nat} (h : pget p x = x) :
    (ufFind (f + 1) p x).1 = p := by
  rw [ufFind_succ, if_neg (not_not_intro h)]

lemma ufFind_succ_snd_root {f : Nat} {p : List Nat} {x : Nat} (h : pget p x = x) :
    (ufFind (f + 1) p x).2 = x := by
  rw [ufFind_succ, if_neg (not_not_intro h)]

lemma ufFind_succ_fst {f : Nat} {p : List Nat} {x : Nat} (h : pget p x ≠ x) :
    (ufFind (f + 1) p x).1 =
      (ufFind f p (pget p x)).1.set x (ufFind f p (pget p x)).2 := by
  rw [ufFind_succ, if_pos h]

lemma ufFind_succ_snd {f : Nat} {p : List Nat} {x : Nat} (h : pget p x ≠ x) :
    (ufFind (f + 1) p x).2 = (ufFind f p (pget p x)).2 := by
  rw [ufFind_succ, if_pos h]

lemma ufFind_fst_length (fuel : Nat) :
    ∀ p x, (ufFind fuel p x).1.length = p.length := by
  induction fuel with
  | zero => intro p x; rfl
  | succ f ih =>
    intro p x
    by_cases h : pget p x = x
    · rw [ufFind_succ_fst_root h]
    · rw [ufFind_succ_fst h, List.length_set, ih]

lemma pget_lt_of_ne {p : List Nat} {x : Nat} (h : pget p x ≠ x) : x < p.length := by
  by_contra hge
  push_neg at hge
  exact h (List.getD_eq_default _ _ hge)

lemma pget_set_self {l : List Nat} {i : Nat} (h : i < l.length) (a : Nat) :
    pget (l.set i a) i = a := getD_set_self h a i

lemma pget_set_ne {l : List Nat} {i j : Nat} (h : i ≠ j) (a : Nat) :
    pget (l.set i a) j = pget l j := getD_set_ne h a j

lemma ufFind_snd {r : Nat} :
    ∀ (k fuel : Nat) (p : List Nat) (x : Nat), pchain p x k = r → IsRootP p r →
      k ≤ fuel → (ufFind fuel p x).2 = r := by
  intro k
  induction k with
  | zero =>
    intro fuel p x hc hr _
    rw [show pchain p x 0 = x from rfl] at hc
    subst hc
    cases fuel with
    | zero => rfl
    | succ f => exact ufFind_succ_snd_root hr
  | succ j ih =>
    intro fuel p x hc hr hk
    cases fuel with
    | zero => omega
    | succ f =>
      by_cases hroot : pget p x = x
      · rw [ufFind_succ_snd_root hroot]
        have : pchain p x (j + 1) = x := pchain_of_root hroot _
        rw [this] at hc
        exact hc
      · rw [ufFind_succ_snd hroot]
        exact ih f p (pget p x) hc hr (by omega)

lemma ufFind_fst_getD {r : Nat} :
    ∀ (k fuel : Nat) (p : List Nat) (x j : Nat), pchain p x k = r → IsRootP p r →
      k ≤ fuel →
      pget (ufFind fuel p x).1 j = pget p j ∨
        (pget (ufFind fuel p x).1 j = r ∧ ¬ IsRootP p j ∧ RootsTo p j r) := by
  intro k
  induction k with
  | zero =>
    intro fuel p x j hc hr _
    rw [show pchain p x 0 = x from rfl] at hc
    subst hc
    cases fuel with
    | zero => exact Or.inl rfl
    | succ f =>
      rw [ufFind_succ_fst_root hr]
      exact Or.inl rfl
  | succ m ih =>
    intro fuel p x j hc hr hk
    cases fuel with
    | zero => omega
    | succ f =>
      by_cases hroot : pget p x = x
      · rw [ufFind_succ_fst_root hroot]
        exact Or.inl rfl
      · rw [ufFind_succ_fst hroot]
        have hsnd : (ufFind f p (pget p x)).2 = r := ufFind_snd m f p (pget p x) hc hr (by omega)
        by_cases hjx : j = x
        · subst hjx
          have hjlt : j < p.length := pget_lt_of_ne hroot
          have hjlt2 : j < (ufFind f p (pget p j)).1.length := by
            rw [ufFind_fst_length]; exact hjlt
          refine Or.inr ⟨?_, hroot, ⟨⟨m + 1, hc⟩, hr⟩⟩
          rw [pget_set_self hjlt2, hsnd]
        · rcases ih f p (pget p x) j hc hr (by omega) with h | ⟨h1, h2, h3⟩
          · refine Or.inl ?_
            rw [pget_set_ne (fun h => hjx h.symm)]
            exact h
          · refine Or.inr ⟨?_, h2, h3⟩
            rw [pget_set_ne (fun h => hjx h.symm)]
            exact h1

lemma ufFind_isRootP {r k fuel : Nat} {p : List Nat} {x : Nat}
    (hc : pchain p x k = r) (hr : IsRootP p r) (hk : k ≤ fuel) :
    ∀ j, IsRootP p j → IsRootP (ufFind fuel p x).1 j := by
  intro j hj
  rcases ufFind_fst_getD k fuel p x j hc hr hk with h | ⟨_, h2, _⟩
  · exact h.trans hj
  · exact absurd hj h2

lemma ufFind_rootMapLE {r k fuel : Nat} {p : List Nat} {x : Nat}
    (hc : pchain p x k = r) (hr : IsRootP p r) (hk : k ≤ fuel) :
    RootMapLE p (ufFind fuel p x).1 := by
  intro j rj hj
  have hrootj : IsRootP (ufFind fuel p x).1 rj := ufFind_isRootP hc hr hk rj hj.2
  obtain ⟨⟨kj, hkj⟩, hrj⟩ := hj
  refine ⟨?_, hrootj⟩
  induction kj generalizing j with
  | zero =>
    exact ⟨0, hkj⟩
  | succ m ihm =>
    by_cases hjr : IsRootP p j
    · have : pchain p j (m + 1) = j := pchain_of_root hjr _
      rw [this] at hkj
      subst hkj
      exact ⟨0, rfl⟩
    · rcases ufFind_fst_getD k fuel p x j hc hr hk with h | ⟨h1, _, h3⟩
      · obtain ⟨kc, hkc⟩ := ihm (pget p j) hkj
        exact ⟨kc + 1, by
          rw [show pchain (ufFind fuel p x).1 j (kc + 1) =
            pchain (ufFind fuel p x).1 (pget (ufFind fuel p x).1 j) kc from rfl, h, hkc]⟩
      · have hjrj : RootsTo p j rj := ⟨⟨m + 1, hkj⟩, hrj⟩
        have hreq : r = rj := rootsTo_unique h3 hjrj
        exact ⟨1, by
          rw [show pchain (ufFind fuel p x).1 j 1 =
            pchain (ufFind fuel p x).1 (pget (ufFind fuel p x).1 j) 0 from rfl, h1, hreq]
          rfl⟩

lemma pget_getElem {p : List Nat} {i : Nat} (h : i < p.length) : pget p i = p[i] := by
  unfold pget
  rw [List.getD_eq_getElem?_getD, List.getElem?_eq_getElem h]
  rfl

lemma ufFind_fst_bounded {r k fuel : Nat} {p : List Nat} {x : Nat}
    (hb : ∀ a ∈ p, a < p.length) (hx : x < p.length)
    (hc : pchain p x k = r) (hr : IsRootP p r) (hk : k ≤ fuel) :
    ∀ a ∈ (ufFind fuel p x).1, a < (ufFind fuel p x).1.length := by
  intro a ha
  rw [ufFind_fst_length]
  obtain ⟨i, hil, hie⟩ := List.getElem_of_mem ha
  have hil2 : i < p.length := by rw [← ufFind_fst_length fuel p x]; exact hil
  have hpg : pget (ufFind fuel p x).1 i = a := by
    rw [pget_getElem hil, hie]
  rcases ufFind_fst_getD k fuel p x i hc hr hk with h | ⟨h1, _, _⟩
  · rw [hpg, pget_getElem hil2] at h
    rw [h]
    exact hb _ (List.getElem_mem hil2)
  · rw [hpg] at h1
    rw [h1, ← hc]
    exact pchain_mem_lt hb hx k

/-- `ufFind` with fuel `p.length` on a well-formed parent array: the returned
root is the chain root of `x`; the compressed array keeps the length, the
bounds, and the entire root map. -/
lemma ufFind_full {p : List Nat} {x : Nat} (hw : WFp p) (hx : x < p.length) :
    ∃ r, RootsTo p x r ∧ (ufFind p.length p x).2 = r ∧
      WFp (ufFind p.length p x).1 ∧ RootMapLE p (ufFind p.length p x).1 ∧
      (ufFind p.length p x).1.length = p.length := by
  obtain ⟨r, hr⟩ := hw.2 x hx
  obtain ⟨k, hk, hck⟩ := rootsTo_depth_lt hw.1 hx hr
  have hkf : k ≤ p.length := by omega
  have hlen := ufFind_fst_length p.length p x
  have hmap := ufFind_rootMapLE hck hr.2 hkf
  refine ⟨r, hr, ufFind_snd k p.length p x hck hr.2 hkf,
    ⟨ufFind_fst_bounded hw.1 hx hck hr.2 hkf, ?_⟩, hmap, hlen⟩
  intro j hj
  rw [hlen] at hj
  obtain ⟨rj, hrj⟩ := hw.2 j hj
  exact ⟨rj, hmap j rj hrj⟩

lemma rootsTo_lt {p : List Nat} {x r : Nat} (hb : ∀ a ∈ p, a < p.length)
    (hx : x < p.length) (h : RootsTo p x r) : r < p.length := by
  obtain ⟨⟨k, hk⟩, _⟩ := h
  rw [← hk]
  exact pchain_mem_lt hb hx k

lemma bounded_set {l : List Nat} {i v : Nat} (hb : ∀ a ∈ l, a < l.length)
    (hv : v < l.length) : ∀ a ∈ l.set i v, a < (l.set i v).length := by
  intro a ha
  rw [List.length_set]
  obtain ⟨t, htl, hte⟩ := List.getElem_of_mem ha
  rw [List.getElem_set] at hte
  split at hte
  · omega
  · exact hte ▸ hb _ (List.getElem_mem (by rw [List.length_set] at htl; exact htl))

/-- Linking root `a` under root `b` (the `parent[x_root] = y_root` writes of
`union`) maps every root `a` to `b` and keeps all other roots. -/
lemma link_rootsTo {q : List Nat} {a b : Nat} (hra : IsRootP q a) (hrb : IsRootP q b)
    (hab : a ≠ b) (halt : a < q.length) :
    ∀ j r, RootsTo q j r → RootsTo (q.set a b) j (if r = a then b else r) := by
  intro j r hj
  have hrb' : IsRootP (q.set a b) b := by
    show pget (q.set a b) b = b
    rw [pget_set_ne hab]
    exact hrb
  have hroot' : ∀ s, IsRootP q s → s ≠ a → IsRootP (q.set a b) s := by
    intro s hs hsa
    show pget (q.set a b) s = s
    rw [pget_set_ne (fun h => hsa h.symm)]
    exact hs
  have htarget : IsRootP (q.set a b) (if r = a then b else r) := by
    split
    · exact hrb'
    · exact hroot' r hj.2 (by assumption)
  obtain ⟨⟨k, hk⟩, hr⟩ := hj
  refine ⟨?_, htarget⟩
  induction k generalizing j with
  | zero =>
    rw [show pchain q j 0 = j from rfl] at hk
    subst hk
    by_cases hra2 : j = a
    · subst hra2
      rw [if_pos rfl]
      refine ⟨1, ?_⟩
      rw [show pchain (q.set j b) j 1 = pget (q.set j b) j from rfl]
      exact pget_set_self halt b
    · rw [if_neg hra2]
      exact ⟨0, rfl⟩
  | succ m ihm =>
    by_cases hjr : IsRootP q j
    · exact ihm j ((pchain_of_root hjr m).trans ((pchain_of_root hjr (m + 1)).symm.trans hk))
    · have hja : j ≠ a := fun h => hjr (h ▸ hra)
      obtain ⟨kc, hkc⟩ := ihm (pget q j) hk
      refine ⟨kc + 1, ?_⟩
      rw [show pchain (q.set a b) j (kc + 1) =
        pchain (q.set a b) (pget (q.set a b) j) kc from rfl,
        pget_set_ne (fun h => hja h.symm)]
      exact hkc

/-- `union` with fuel `p.length` on a well-formed bounded parent array: the
result is well formed, same length, and its root map is either unchanged (the
two arguments were already connected) or redirects exactly the two old roots
onto one of them. -/
lemma ufUnion_spec {p rank : List Nat} {x y : Nat} (hw : WFp p)
    (hx : x < p.length) (hy : y < p.length) :
    ∃ rx ry, RootsTo p x rx ∧ RootsTo p y ry ∧
      (ufUnion p.length p rank x y).1.length = p.length ∧
      WFp (ufUnion p.length p rank x y).1 ∧
      ((rx = ry ∧ ∀ j r, RootsTo p j r → RootsTo (ufUnion p.length p rank x y).1 j r) ∨
       (rx ≠ ry ∧ ∃ c, (c = rx ∨ c = ry) ∧
         ∀ j r, RootsTo p j r →
           RootsTo (ufUnion p.length p rank x y).1 j
             (if r = rx ∨ r = ry then c else r))) := by
  obtain ⟨rx, hrx, hfx2, hwfx, hmapx, hlenx⟩ := ufFind_full hw hx
  set p1 := (ufFind p.length p x).1 with hp1
  have hy1 : y < p1.length := by rw [hlenx]; exact hy
  obtain ⟨ry, hry1, hfy2, hwfy, hmapy, hleny⟩ := ufFind_full hwfx hy1
  rw [hlenx] at hfy2 hwfy hmapy hleny
  set p2 := (ufFind p.length p1 y).1 with hp2
  obtain ⟨ry0, hry0⟩ := hw.2 y hy
  have hry : RootsTo p y ry := by
    have h2 := hmapx y ry0 hry0
    rw [← rootsTo_unique h2 hry1]
    exact hry0
  have hmap12 : RootMapLE p p2 := fun j r h => hmapy j r (hmapx j r h)
  have hlen2 : p2.length = p.length := hleny
  have hrxlt : rx < p.length := rootsTo_lt hw.1 hx hrx
  have hrylt : ry < p.length := rootsTo_lt hw.1 hy hry
  have hrootx2 : IsRootP p2 rx := (hmap12 x rx hrx).2
  have hrooty2 : IsRootP p2 ry := (hmap12 y ry hry).2
  have hunfold : ufUnion p.length p rank x y =
      (if rx ≠ ry then
        if rank.getD rx 0 < rank.getD ry 0 then (p2.set rx ry, rank)
        else if rank.getD ry 0 < rank.getD rx 0 then (p2.set ry rx, rank)
        else (p2.set ry rx, rank.set rx (rank.getD rx 0 + 1))
      else (p2, rank)) := by
    simp only [ufUnion]
    rw [hfx2, ← hp1, ← hp2, hfy2]
  refine ⟨rx, ry, hrx, hry, ?_, ?_, ?_⟩
  · rw [hunfold]
    by_cases hne : rx = ry
    · rw [if_neg (not_not_intro hne)]
      exact hlen2
    · rw [if_pos hne]
      split
      · rw [List.length_set]; exact hlen2
      · split
        · rw [List.length_set]; exact hlen2
        · rw [List.length_set]; exact hlen2
  · rw [hunfold]
    by_cases hne : rx = ry
    · rw [if_neg (not_not_intro hne)]
      exact hwfy
    · have hrxlt2 : rx < p2.length := by rw [hlen2]; exact hrxlt
      have hrylt2 : ry < p2.length := by rw [hlen2]; exact hrylt
      have hwfset : ∀ a b : Nat, IsRootP p2 a → IsRootP p2 b → a ≠ b →
          a < p2.length → b < p2.length → WFp (p2.set a b) := by
        intro a b hA hB hAB hAlt hBlt
        refine ⟨bounded_set hwfy.1 hBlt, ?_⟩
        intro z hz
        rw [List.length_set] at hz
        obtain ⟨rz, hrz⟩ := hwfy.2 z hz
        exact ⟨_, link_rootsTo hA hB hAB hAlt z rz hrz⟩
      rw [if_pos hne]
      split
      · exact hwfset rx ry hrootx2 hrooty2 hne hrxlt2 hrylt2
      · split
        · exact hwfset ry rx hrooty2 hrootx2 (Ne.symm hne) hrylt2 hrxlt2
        · exact hwfset ry rx hrooty2 hrootx2 (Ne.symm hne) hrylt2 hrxlt2
  · by_cases hne : rx = ry
    · refine Or.inl ⟨hne, ?_⟩
      intro j r h
      rw [hunfold, if_neg (not_not_intro hne)]
      exact hmap12 j r h
    · have hrxlt2 : rx < p2.length := by rw [hlen2]; exact hrxlt
      have hrylt2 : ry < p2.length := by rw [hlen2]; exact hrylt
      refine Or.inr ⟨hne, ?_⟩
      rw [hunfold, if_pos hne]
      split
      · refine ⟨ry, Or.inr rfl, ?_⟩
        intro j r h
        have hstep := link_rootsTo hrootx2 hrooty2 hne hrxlt2 j r (hmap12 j r h)
        have : (if r = rx then ry else r) = (if r = rx ∨ r = ry then ry else r) := by
          by_cases h1 : r = rx
          · rw [if_pos h1, if_pos (Or.inl h1)]
          · rw [if_neg h1]
            by_cases h2 : r = ry
            · rw [if_pos (Or.inr h2), h2]
            · rw [if_neg (by tauto)]
        rw [← this]
        exact hstep
      · split
        all_goals
          refine ⟨rx, Or.inl rfl, ?_⟩
          intro j r h
          have hstep := link_rootsTo hrooty2 hrootx2 (Ne.symm hne) hrylt2 j r (hmap12 j r h)
          have : (if r = ry then rx else r) = (if r = rx ∨ r = ry then rx else r) := by
            by_cases h1 : r = ry
            · rw [if_pos h1, if_pos (Or.inr h1)]
            · rw [if_neg h1]
              by_cases h2 : r = rx
              · rw [if_pos (Or.inl h2), h2]
              · rw [if_neg (by tauto)]
          rw [← this]
          exact hstep

/-- Two indices lie in the same union-find component. -/
def sameRoot (p : List Nat) (a b : Nat) : Prop :=
  ∃ r, RootsTo p a r ∧ RootsTo p b r

lemma sameRoot_symm {p : List Nat} {a b : Nat} (h : sameRoot p a b) : sameRoot p b a := by
  obtain ⟨r, h1, h2⟩ := h
  exact ⟨r, h2, h1⟩

lemma sameRoot_trans {p : List Nat} {a b c : Nat} (h1 : sameRoot p a b)
    (h2 : sameRoot p b c) : sameRoot p a c := by
  obtain ⟨r, ha, hb⟩ := h1
  obtain ⟨s, hb2, hc⟩ := h2
  exact ⟨r, ha, rootsTo_unique hb2 hb ▸ hc⟩

/-- Undirected adjacency given by a list of edges. -/
def EdgeRel (E : List (Nat × Nat)) (a b : Nat) : Prop := (a, b) ∈ E ∨ (b, a) ∈ E

/-- Connectivity in the undirected graph given by a list of edges. -/
def Conn (E : List (Nat × Nat)) : Nat → Nat → Prop := Relation.EqvGen (EdgeRel E)

lemma Conn.refl (E : List (Nat × Nat)) (a : Nat) : Conn E a a :=
  Relation.EqvGen.refl a

lemma Conn.symm {E : List (Nat × Nat)} {a b : Nat} (h : Conn E a b) : Conn E b a :=
  Relation.EqvGen.symm a b h

lemma Conn.trans {E : List (Nat × Nat)} {a b c : Nat} (h1 : Conn E a b)
    (h2 : Conn E b c) : Conn E a c :=
  Relation.EqvGen.trans a b c h1 h2

lemma Conn.edge {E : List (Nat × Nat)} {e : Nat × Nat} (he : e ∈ E) :
    Conn E e.1 e.2 :=
  Relation.EqvGen.rel _ _ (Or.inl (by rw [show (e.1, e.2) = e from rfl]; exact he))

lemma Conn_mono {E E' : List (Nat × Nat)} (hsub : ∀ e ∈ E, e ∈ E') {a b : Nat}
    (h : Conn E a b) : Conn E' a b := by
  induction h with
  | rel u v huv =>
    rcases huv with h1 | h1
    · exact Relation.EqvGen.rel _ _ (Or.inl (hsub _ h1))
    · exact Relation.EqvGen.rel _ _ (Or.inr (hsub _ h1))
  | refl u => exact Relation.EqvGen.refl u
  | symm u v _ ih => exact Relation.EqvGen.symm u v ih
  | trans u v w _ _ ih1 ih2 => exact Relation.EqvGen.trans u v w ih1 ih2

lemma Conn_nil {a b : Nat} (h : Conn [] a b) : a = b := by
  induction h with
  | rel u v huv => rcases huv with h1 | h1 <;> simp at h1
  | refl u => rfl
  | symm u v _ ih => exact ih.symm
  | trans u v w _ _ ih1 ih2 => exact ih1.trans ih2

/-- Adding one edge to the graph: connectivity either avoids the new edge or
passes through it in one of the two directions. -/
lemma Conn_join {e : Nat × Nat} {E : List (Nat × Nat)} {a b : Nat} :
    Conn (e :: E) a b ↔
      Conn E a b ∨ (Conn E a e.1 ∧ Conn E e.2 b) ∨ (Conn E a e.2 ∧ Conn E e.1 b) := by
  constructor
  · intro h
    induction h with
    | rel u v huv =>
      rcases huv with h1 | h1
      · rcases List.mem_cons.mp h1 with h2 | h2
        · refine Or.inr (Or.inl ⟨?_, ?_⟩)
          · rw [show e.1 = (u, v).1 from by rw [← h2]]
            exact Conn.refl E u
          · rw [show e.2 = (u, v).2 from by rw [← h2]]
            exact Conn.refl E v
        · exact Or.inl (Relation.EqvGen.rel _ _ (Or.inl h2))
      · rcases List.mem_cons.mp h1 with h2 | h2
        · refine Or.inr (Or.inr ⟨?_, ?_⟩)
          · rw [show e.2 = (v, u).2 from by rw [← h2]]
            exact Conn.refl E u
          · rw [show e.1 = (v, u).1 from by rw [← h2]]
            exact Conn.refl E v
        · exact Or.inl (Relation.EqvGen.rel _ _ (Or.inr h2))
    | refl u => exact Or.inl (Conn.refl E u)
    | symm u v _ ih =>
      rcases ih with h1 | ⟨h1, h2⟩ | ⟨h1, h2⟩
      · exact Or.inl h1.symm
      · exact Or.inr (Or.inr ⟨h2.symm, h1.symm⟩)
      · exact Or.inr (Or.inl ⟨h2.symm, h1.symm⟩)
    | trans u v w _ _ ih1 ih2 =>
      rcases ih1 with h1 | ⟨h1, h2⟩ | ⟨h1, h2⟩ <;>
        rcases ih2 with h3 | ⟨h3, h4⟩ | ⟨h3, h4⟩
      · exact Or.inl (h1.trans h3)
      · exact Or.inr (Or.inl ⟨h1.trans h3, h4⟩)
      · exact Or.inr (Or.inr ⟨h1.trans h3, h4⟩)
      · exact Or.inr (Or.inl ⟨h1, h2.trans h3⟩)
      · exact Or.inl (h1.trans ((h2.trans h3).symm.trans h4))
      · exact Or.inl (h1.trans h4)
      · exact Or.inr (Or.inr ⟨h1, h2.trans h3⟩)
      · exact Or.inl (h1.trans h4)
      · exact Or.inl (h1.trans ((h2.trans h3).symm.trans h4))
  · intro h
    have hsub : ∀ x ∈ E, x ∈ e :: E := fun x hx => List.mem_cons_of_mem e hx
    have hedge : Conn (e :: E) e.1 e.2 := Conn.edge (List.mem_cons_self e E)
    rcases h with h1 | ⟨h1, h2⟩ | ⟨h1, h2⟩
    · exact Conn_mono hsub h1
    · exact ((Conn_mono hsub h1).trans hedge).trans (Conn_mono hsub h2)
    · exact ((Conn_mono hsub h1).trans hedge.symm).trans (Conn_mono hsub h2)

lemma sameRoot_iff_eq {p : List Nat} {u v ru rv : Nat} (hu : RootsTo p u ru)
    (hv : RootsTo p v rv) : sameRoot p u v ↔ ru = rv := by
  constructor
  · rintro ⟨s, h1, h2⟩
    rw [rootsTo_unique hu h1, rootsTo_unique hv h2]
  · intro h
    exact ⟨ru, hu, h ▸ hv⟩

/-- `union` joins exactly the components of its two arguments: afterwards two
indices are connected iff they were connected before or lie on opposite sides
of the new link. -/
lemma ufUnion_sameRoot {p rank : List Nat} {x y : Nat} (hw : WFp p)
    (hx : x < p.length) (hy : y < p.length) :
    WFp (ufUnion p.length p rank x y).1 ∧
    (ufUnion p.length p rank x y).1.length = p.length ∧
    ∀ u v, u < p.length → v < p.length →
      (sameRoot (ufUnion p.length p rank x y).1 u v ↔
        (sameRoot p u v ∨ (sameRoot p u x ∧ sameRoot p y v) ∨
          (sameRoot p u y ∧ sameRoot p x v))) := by
  obtain ⟨rx, ry, hrx, hry, hlen, hwf, hcase⟩ := @ufUnion_spec p rank x y hw hx hy
  refine ⟨hwf, hlen, ?_⟩
  intro u v hu hv
  obtain ⟨ru, hru⟩ := hw.2 u hu
  obtain ⟨rv, hrv⟩ := hw.2 v hv
  rcases hcase with ⟨heq, hmap⟩ | ⟨hne, c, hc, hmap⟩
  · have hru2 := hmap u ru hru
    have hrv2 := hmap v rv hrv
    rw [sameRoot_iff_eq hru2 hrv2, ← sameRoot_iff_eq hru hrv]
    constructor
    · exact fun h => Or.inl h
    · have hxy : sameRoot p x y := ⟨ry, by rw [← heq]; exact hrx, hry⟩
      rintro (h | ⟨h1, h2⟩ | ⟨h1, h2⟩)
      · exact h
      · exact sameRoot_trans (sameRoot_trans h1 hxy) h2
      · exact sameRoot_trans (sameRoot_trans h1 (sameRoot_symm hxy)) h2
  · have hru2 := hmap u ru hru
    have hrv2 := hmap v rv hrv
    have hkey : ∀ s t : Nat,
        ((if s = rx ∨ s = ry then c else s) = (if t = rx ∨ t = ry then c else t) ↔
          (s = t ∨ (s = rx ∧ ry = t) ∨ (s = ry ∧ rx = t))) := by
      intro s t
      by_cases hs : s = rx ∨ s = ry <;> by_cases ht : t = rx ∨ t = ry
      · rw [if_pos hs, if_pos ht]
        constructor
        · intro _
          rcases hs with hs | hs <;> rcases ht with ht | ht
          · exact Or.inl (hs.trans ht.symm)
          · exact Or.inr (Or.inl ⟨hs, ht.symm⟩)
          · exact Or.inr (Or.inr ⟨hs, ht.symm⟩)
          · exact Or.inl (hs.trans ht.symm)
        · intro _
          rfl
      · rw [if_pos hs, if_neg ht]
        constructor
        · intro hct
          exfalso
          apply ht
          rcases hc with hc | hc
          · exact Or.inl (by rw [← hct, hc])
          · exact Or.inr (by rw [← hct, hc])
        · rintro (h | ⟨h1, h2⟩ | ⟨h1, h2⟩)
          · exact absurd (h ▸ hs) ht
          · exact absurd (Or.inr h2.symm) ht
          · exact absurd (Or.inl h2.symm) ht
      · rw [if_neg hs, if_pos ht]
        constructor
        · intro hct
          exfalso
          apply hs
          rcases hc with hc | hc
          · exact Or.inl (by rw [hct, hc])
          · exact Or.inr (by rw [hct, hc])
        · rintro (h | ⟨h1, h2⟩ | ⟨h1, h2⟩)
          · exact absurd (h ▸ ht) hs
          · exact absurd (Or.inl h1) hs
          · exact absurd (Or.inr h1) hs
      · rw [if_neg hs, if_neg ht]
        constructor
        · exact fun h => Or.inl h
        · rintro (h | ⟨h1, h2⟩ | ⟨h1, h2⟩)
          · exact h
          · exact absurd (Or.inl h1) hs
          · exact absurd (Or.inr h1) hs
    rw [sameRoot_iff_eq hru2 hrv2, hkey,
      show (sameRoot p u v ∨ (sameRoot p u x ∧ sameRoot p y v) ∨
          (sameRoot p u y ∧ sameRoot p x v)) ↔
        (ru = rv ∨ (ru = rx ∧ ry = rv) ∨ (ru = ry ∧ rx = rv)) from by
      rw [sameRoot_iff_eq hru hrv, sameRoot_iff_eq hru hrx, sameRoot_iff_eq hry hrv,
        sameRoot_iff_eq hru hry, sameRoot_iff_eq hrx hrv]]

lemma pget_range (n x : Nat) : pget (List.range n) x = x := by
  by_cases h : x < n
  · unfold pget
    rw [List.getD_eq_getElem?_getD, List.getElem?_range h]
    rfl
  · exact List.getD_eq_default _ _ (by rw [List.length_range]; omega)

lemma pchain_range (n x : Nat) : ∀ k, pchain (List.range n) x k = x := by
  intro k
  induction k with
  | zero => rfl
  | succ j ih =>
    show pchain (List.range n) (pget (List.range n) x) j = x
    rw [pget_range]
    exact ih

lemma rootsTo_range {n x r : Nat} : RootsTo (List.range n) x r ↔ r = x := by
  constructor
  · rintro ⟨⟨k, hk⟩, _⟩
    rw [← hk, pchain_range]
  · intro h
    subst h
    exact rootsTo_self (pget_range _ _)

lemma WFp_range (n : Nat) : WFp (List.range n) :=
  ⟨fun a ha => by rw [List.length_range]; exact List.mem_range.mp ha,
   fun x _ => ⟨x, rootsTo_range.mpr rfl⟩⟩

lemma sameRoot_range {n a b : Nat} : sameRoot (List.range n) a b ↔ a = b := by
  constructor
  · rintro ⟨r, h1, h2⟩
    exact (rootsTo_range.mp h1).symm.trans (rootsTo_range.mp h2)
  · intro h
    subst h
    exact ⟨a, rootsTo_range.mpr rfl, rootsTo_range.mpr rfl⟩

/-- The undirected edges laid down by the component-building loop of
`free_subtree`: one edge per live slot with a nonzero parent address, joining
the slot to its parent's slot. -/
def slotEdges (info : List PortInfo) (l : List Nat) : List (Nat × Nat) :=
  l.filterMap (fun i =>
    if !(info.getD i PortInfo.invalid).is_empty then
      match (info.getD i PortInfo.invalid).parent_addr with
      | some pa => if 0 < pa then some (i, pa - 1) else none
      | none => none
    else none)

lemma Conn_congr_mem {E E' : List (Nat × Nat)} (h : ∀ e, e ∈ E ↔ e ∈ E') (a b : Nat) :
    Conn E a b ↔ Conn E' a b :=
  ⟨Conn_mono (fun e he => (h e).mp he), Conn_mono (fun e he => (h e).mpr he)⟩

/-- The component-building loop of `free_subtree` computes exactly the
connectivity of `slotEdges` (relative to the components already present). -/
lemma buildComponents_spec (info : List PortInfo) (n : Nat) :
    ∀ (l : List Nat) (p rank : List Nat) (E : List (Nat × Nat)),
      WFp p → p.length = n → (∀ i ∈ l, i < n) →
      (∀ i ∈ l, ∀ pa, (info.getD i PortInfo.invalid).is_empty = false →
        (info.getD i PortInfo.invalid).parent_addr = some pa → 0 < pa → pa - 1 < n) →
      (∀ a b, a < n → b < n → (sameRoot p a b ↔ Conn E a b)) →
      WFp (buildComponents info n (p, rank) l).1 ∧
      (buildComponents info n (p, rank) l).1.length = n ∧
      ∀ a b, a < n → b < n →
        (sameRoot (buildComponents info n (p, rank) l).1 a b ↔
          Conn (E ++ slotEdges info l) a b) := by
  intro l
  induction l with
  | nil =>
    intro p rank E hw hplen _ _ hE
    refine ⟨hw, hplen, ?_⟩
    intro a b ha hb
    rw [show buildComponents info n (p, rank) [] = (p, rank) from rfl,
      show slotEdges info [] = [] from rfl, List.append_nil]
    exact hE a b ha hb
  | cons i rest ih =>
    intro p rank E hw hplen hmem hpa hE
    have hmem' := fun j hj => hmem j (List.mem_cons_of_mem i hj)
    have hpa' := fun j hj => hpa j (List.mem_cons_of_mem i hj)
    cases hlive : (info.getD i PortInfo.invalid).is_empty with
    | true =>
      have hstep : buildComponents info n (p, rank) (i :: rest) =
          buildComponents info n (p, rank) rest := by
        simp only [buildComponents, List.foldl_cons, hlive]
        rfl
      have hedge : slotEdges info (i :: rest) = slotEdges info rest := by
        simp only [slotEdges, List.filterMap_cons, hlive]
        rfl
      rw [hstep, hedge]
      exact ih p rank E hw hplen hmem' hpa' hE
    | false =>
      cases hpar : (info.getD i PortInfo.invalid).parent_addr with
      | none =>
        have hstep : buildComponents info n (p, rank) (i :: rest) =
            buildComponents info n (p, rank) rest := by
          simp only [buildComponents, List.foldl_cons, hlive, hpar]
          rfl
        have hedge : slotEdges info (i :: rest) = slotEdges info rest := by
          simp only [slotEdges, List.filterMap_cons, hlive, hpar]
          rfl
        rw [hstep, hedge]
        exact ih p rank E hw hplen hmem' hpa' hE
      | some pa =>
        by_cases hpos : 0 < pa
        · have hstep : buildComponents info n (p, rank) (i :: rest) =
              buildComponents info n (ufUnion n p rank i (pa - 1)) rest := by
            simp only [buildComponents, List.foldl_cons, hlive, hpar, hpos]
            rfl
          have hedge : slotEdges info (i :: rest) = (i, pa - 1) :: slotEdges info rest := by
            simp only [slotEdges, List.filterMap_cons, hlive, hpar, hpos]
            rfl
          rw [hstep, hedge]
          have hi : i < n := hmem i (List.mem_cons_self i rest)
          have hpalt : pa - 1 < n := hpa i (List.mem_cons_self i rest) pa hlive hpar hpos
          have hu := @ufUnion_sameRoot p rank i (pa - 1) hw (by omega) (by omega)
          rw [hplen] at hu
          obtain ⟨hw2, hlen2, hiff⟩ := hu
          have hE2 : ∀ a b, a < n → b < n →
              (sameRoot (ufUnion n p rank i (pa - 1)).1 a b ↔
                Conn ((i, pa - 1) :: E) a b) := by
            intro a b ha hb
            rw [hiff a b ha hb, Conn_join]
            rw [hE a b ha hb, hE a i ha hi, hE (pa - 1) b hpalt hb,
              hE a (pa - 1) ha hpalt, hE i b hi hb]
          have hres := ih (ufUnion n p rank i (pa - 1)).1 (ufUnion n p rank i (pa - 1)).2
            ((i, pa - 1) :: E) hw2 hlen2 hmem' hpa' hE2
          refine ⟨hres.1, hres.2.1, ?_⟩
          intro a b ha hb
          rw [show buildComponents info n (ufUnion n p rank i (pa - 1)) rest =
            buildComponents info n
              ((ufUnion n p rank i (pa - 1)).1, (ufUnion n p rank i (pa - 1)).2) rest from rfl]
          rw [hres.2.2 a b ha hb]
          refine Conn_congr_mem (fun e => ?_) a b
          simp only [List.mem_append, List.mem_cons]
          tauto
        · have hstep : buildComponents info n (p, rank) (i :: rest) =
              buildComponents info n (p, rank) rest := by
            simp only [buildComponents, List.foldl_cons, hlive, hpar, hpos]
            rfl
          have hedge : slotEdges info (i :: rest) = slotEdges info rest := by
            simp only [slotEdges, List.filterMap_cons, hlive, hpar, hpos]
            rfl
          rw [hstep, hedge]
          exact ih p rank E hw hplen hmem' hpa' hE

/-- If some listed slot is live with parent address 0, the root-component
search returns the union-find root of the first such slot, path-compressing
but preserving the root map. -/
lemma rootComponentSearch_spec (info : List PortInfo) (n : Nat) :
    ∀ (l : List Nat) (p : List Nat), WFp p → p.length = n → (∀ i ∈ l, i < n) →
      (∃ i ∈ l, (info.getD i PortInfo.invalid).is_empty = false ∧
          (info.getD i PortInfo.invalid).parent_addr = some 0) →
      ∃ i0 r, i0 ∈ l ∧ (info.getD i0 PortInfo.invalid).is_empty = false ∧
        (info.getD i0 PortInfo.invalid).parent_addr = some 0 ∧
        RootsTo p i0 r ∧
        (rootComponentSearch info n p l).1 = some r ∧
        WFp (rootComponentSearch info n p l).2 ∧
        RootMapLE p (rootComponentSearch info n p l).2 ∧
        (rootComponentSearch info n p l).2.length = n := by
  intro l
  induction l with
  | nil =>
    intro p _ _ _ hex
    simp at hex
  | cons i rest ih =>
    intro p hw hplen hmem hex
    by_cases hcond : (!(info.getD i PortInfo.invalid).is_empty &&
        ((info.getD i PortInfo.invalid).parent_addr == some 0)) = true
    · have hstep : rootComponentSearch info n p (i :: rest) =
          (some (ufFind n p i).2, (ufFind n p i).1) := by
        simp only [rootComponentSearch, hcond]
        rfl
      have hlive : (info.getD i PortInfo.invalid).is_empty = false := by
        rcases Bool.and_eq_true_iff.mp hcond with ⟨h1, _⟩
        simpa using h1
      have hpa : (info.getD i PortInfo.invalid).parent_addr = some 0 := by
        rcases Bool.and_eq_true_iff.mp hcond with ⟨_, h2⟩
        exact eq_of_beq h2
      have hilt : i < p.length := by rw [hplen]; exact hmem i (List.mem_cons_self i rest)
      obtain ⟨r, hr, hsnd, hwf, hmap, hlen⟩ := ufFind_full hw hilt
      rw [hplen] at hsnd hwf hmap hlen
      exact ⟨i, r, List.mem_cons_self i rest, hlive, hpa, hr,
        by rw [hstep]; rw [hsnd], by rw [hstep]; exact hwf,
        by rw [hstep]; exact hmap, by rw [hstep]; exact hlen⟩
    · have hstep : rootComponentSearch info n p (i :: rest) =
          rootComponentSearch info n p rest := by
        simp only [rootComponentSearch, hcond]
        rfl
      have hex2 : ∃ j ∈ rest, (info.getD j PortInfo.invalid).is_empty = false ∧
          (info.getD j PortInfo.invalid).parent_addr = some 0 := by
        obtain ⟨j, hj, h1, h2⟩ := hex
        rcases List.mem_cons.mp hj with hji | hjr
        · exfalso
          apply hcond
          rw [hji] at h1 h2
          rw [h1, h2]
          rfl
        · exact ⟨j, hjr, h1, h2⟩
      obtain ⟨i0, r, hi0, h1, h2, h3, h4, h5, h6, h7⟩ := ih p hw hplen
        (fun j hj => hmem j (List.mem_cons_of_mem i hj)) hex2
      exact ⟨i0, r, List.mem_cons_of_mem i hi0, h1, h2, h3,
        by rw [hstep]; exact h4, by rw [hstep]; exact h5,
        by rw [hstep]; exact h6, by rw [hstep]; exact h7⟩

/-- The slots the final `free_subtree` loop removes: live in the post-removal
table and union-find root different from the root component. -/
def freedSlot (pstar : List Nat) (root : Nat) (info1 : List PortInfo) (i : Nat) : Prop :=
  (info1.getD i PortInfo.invalid).is_empty = false ∧
    ∃ ri, RootsTo pstar i ri ∧ ri ≠ root

lemma getD_set_invalid (info : List PortInfo) (i : Nat) :
    (info.set i PortInfo.invalid).getD i PortInfo.invalid = PortInfo.invalid := by
  by_cases h : i < info.length
  · exact getD_set_self h _ _
  · exact List.getD_eq_default _ _ (by rw [List.length_set]; omega)

/-- The final `free_subtree` loop invalidates exactly the live slots whose
union-find root differs from the root component, adds exactly their addresses
to the mask, and leaves every other slot and mask bit unchanged. -/
lemma scanFree_exact (n root : Nat) (pstar : List Nat) (info1 : List PortInfo)
    (hwstar : WFp pstar) (hlstar : pstar.length = n) :
    ∀ (l : List Nat) (parent : List Nat) (info : List PortInfo) (mask : Finset Nat),
      WFp parent → parent.length = n → RootMapLE pstar parent →
      l.Nodup → (∀ i ∈ l, i < n) →
      (∀ i ∈ l, info.getD i PortInfo.invalid = info1.getD i PortInfo.invalid) →
      (scanFree n root parent info mask l).1.length = info.length ∧
      (∀ j, j ∉ l →
        (scanFree n root parent info mask l).1.getD j PortInfo.invalid =
          info.getD j PortInfo.invalid ∧
        ((j + 1) ∈ (scanFree n root parent info mask l).2.1 ↔ (j + 1) ∈ mask)) ∧
      (∀ i ∈ l,
        (freedSlot pstar root info1 i →
          (scanFree n root parent info mask l).1.getD i PortInfo.invalid =
            PortInfo.invalid ∧
          (i + 1) ∈ (scanFree n root parent info mask l).2.1) ∧
        (¬ freedSlot pstar root info1 i →
          (scanFree n root parent info mask l).1.getD i PortInfo.invalid =
            info1.getD i PortInfo.invalid ∧
          ((i + 1) ∈ (scanFree n root parent info mask l).2.1 ↔ (i + 1) ∈ mask))) := by
  intro l
  induction l with
  | nil =>
    intro parent info mask _ _ _ _ _ _
    refine ⟨rfl, fun j _ => ⟨rfl, Iff.rfl⟩, fun i hi => absurd hi (List.not_mem_nil i)⟩
  | cons i rest ih =>
    intro parent info mask hwpar hlpar hle hnd hmem hagree
    have hagree_i : info.getD i PortInfo.invalid = info1.getD i PortInfo.invalid :=
      hagree i (List.mem_cons_self i rest)
    have hirest : i ∉ rest := (List.nodup_cons.mp hnd).1
    have hndr : rest.Nodup := (List.nodup_cons.mp hnd).2
    have hmem' := fun j hj => hmem j (List.mem_cons_of_mem i hj)
    have hagree' := fun j hj => hagree j (List.mem_cons_of_mem i hj)
    have hilt : i < n := hmem i (List.mem_cons_self i rest)
    have hunf : scanFree n root parent info mask (i :: rest) =
        if !(info.getD i PortInfo.invalid).is_empty then
          if (ufFind n parent i).2 ≠ root then
            scanFree n root (ufFind n parent i).1 (info.set i PortInfo.invalid)
              (insert (i + 1) mask) rest
          else scanFree n root (ufFind n parent i).1 info mask rest
        else scanFree n root parent info mask rest := rfl
    cases hlive1 : (info1.getD i PortInfo.invalid).is_empty with
    | true =>
      have hstep : scanFree n root parent info mask (i :: rest) =
          scanFree n root parent info mask rest := by
        rw [hunf, if_neg (by rw [hagree_i, hlive1]; simp)]
      rw [hstep]
      obtain ⟨hL, hout, hin⟩ := ih parent info mask hwpar hlpar hle hndr hmem' hagree'
      refine ⟨hL, ?_, ?_⟩
      · intro j hj
        exact hout j (fun h => hj (List.mem_cons_of_mem i h))
      · intro j hj
        rcases List.mem_cons.mp hj with hji | hjr
        · subst hji
          refine ⟨?_, ?_⟩
          · intro hf
            exact absurd hf.1 (by rw [hlive1]; simp)
          · intro _
            obtain ⟨h1, h2⟩ := hout j hirest
            exact ⟨h1.trans hagree_i, h2⟩
        · exact hin j hjr
    | false =>
      have hiltp : i < parent.length := by rw [hlpar]; exact hilt
      obtain ⟨r2, hr2, hsnd, hwf2, hle2, hlen2⟩ := ufFind_full hwpar hiltp
      rw [hlpar] at hsnd hwf2 hle2 hlen2
      obtain ⟨ri, hri⟩ := hwstar.2 i (by rw [hlstar]; exact hilt)
      have hri_par : RootsTo parent i ri := hle i ri hri
      have hr2ri : r2 = ri := rootsTo_unique hr2 hri_par
      rw [hr2ri] at hsnd
      have hle3 : RootMapLE pstar (ufFind n parent i).1 :=
        fun j rj h => hle2 j rj (hle j rj h)
      by_cases hdec : ri = root
      · have hstep : scanFree n root parent info mask (i :: rest) =
            scanFree n root (ufFind n parent i).1 info mask rest := by
          rw [hunf, if_pos (by rw [hagree_i, hlive1]; simp),
            if_neg (by rw [hsnd]; exact not_not_intro hdec)]
        rw [hstep]
        obtain ⟨hL, hout, hin⟩ := ih (ufFind n parent i).1 info mask hwf2 hlen2 hle3
          hndr hmem' hagree'
        refine ⟨hL, ?_, ?_⟩
        · intro j hj
          exact hout j (fun h => hj (List.mem_cons_of_mem i h))
        · intro j hj
          rcases List.mem_cons.mp hj with hji | hjr
          · subst hji
            refine ⟨?_, ?_⟩
            · intro hf
              obtain ⟨_, ri2, hri2, hne2⟩ := hf
              rw [rootsTo_unique hri2 hri] at hne2
              exact absurd hdec hne2
            · intro _
              obtain ⟨h1, h2⟩ := hout j hirest
              exact ⟨h1.trans hagree_i, h2⟩
          · exact hin j hjr
      · have hstep : scanFree n root parent info mask (i :: rest) =
            scanFree n root (ufFind n parent i).1 (info.set i PortInfo.invalid)
              (insert (i + 1) mask) rest := by
          rw [hunf, if_pos (by rw [hagree_i, hlive1]; simp),
            if_pos (by rw [hsnd]; exact hdec)]
        rw [hstep]
        have hagree2 : ∀ j ∈ rest, (info.set i PortInfo.invalid).getD j PortInfo.invalid =
            info1.getD j PortInfo.invalid := by
          intro j hj
          have hij : i ≠ j := fun h => hirest (h ▸ hj)
          rw [getD_set_ne hij]
          exact hagree' j hj
        obtain ⟨hL, hout, hin⟩ := ih (ufFind n parent i).1 (info.set i PortInfo.invalid)
          (insert (i + 1) mask) hwf2 hlen2 hle3 hndr hmem' hagree2
        refine ⟨by rw [hL, List.length_set], ?_, ?_⟩
        · intro j hj
          have hji : j ≠ i := fun h => hj (h ▸ List.mem_cons_self i rest)
          obtain ⟨h1, h2⟩ := hout j (fun h => hj (List.mem_cons_of_mem i h))
          refine ⟨h1.trans (getD_set_ne (fun h => hji h.symm) _ _), ?_⟩
          rw [h2, Finset.mem_insert]
          constructor
          · rintro (h | h)
            · exact absurd (by omega : j = i) hji
            · exact h
          · exact fun h => Or.inr h
        · intro j hj
          rcases List.mem_cons.mp hj with hji | hjr
          · subst hji
            refine ⟨?_, ?_⟩
            · intro _
              obtain ⟨h1, h2⟩ := hout j hirest
              refine ⟨h1.trans (getD_set_invalid info j), ?_⟩
              rw [h2]
              exact Finset.mem_insert_self _ _
            · intro hnf
              exact absurd ⟨hlive1, ri, hri, hdec⟩ hnf
          · obtain ⟨hf, hnf⟩ := hin j hjr
            have hji : j ≠ i := fun h => hirest (h ▸ hjr)
            refine ⟨hf, ?_⟩
            intro hn
            obtain ⟨h1, h2⟩ := hnf hn
            refine ⟨h1, ?_⟩
            rw [h2, Finset.mem_insert]
            constructor
            · rintro (h | h)
              · exact absurd (by omega : j = i) hji
              · exact h
            · exact fun h => Or.inr h

/-! Table-level notions for the `free_subtree` claim: the parent forest stored
in the `PortInfo` slots (slot `i` holds address `i + 1`; a stored parent
address `pa > 0` points at slot `pa - 1`, `pa = 0` marks a root device). -/

/-- The subtree of slot `idx` in the stored parent forest: `idx` itself and
every live slot whose parent chain reaches `idx`. -/
inductive SubtreeOf (info : List PortInfo) (idx : Nat) : Nat → Prop
  | base : SubtreeOf info idx idx
  | step (j m : Nat) : (info.getD j PortInfo.invalid).is_empty = false →
      (info.getD j PortInfo.invalid).parent_addr = some (m + 1) →
      SubtreeOf info idx m → SubtreeOf info idx j

/-- A slot whose parent chain (through live slots) reaches a root device
(stored parent address 0). -/
inductive RootPath (info : List PortInfo) : Nat → Prop
  | base (i : Nat) : (info.getD i PortInfo.invalid).parent_addr = some 0 →
      RootPath info i
  | step (i m : Nat) : (info.getD i PortInfo.invalid).parent_addr = some (m + 1) →
      (info.getD m PortInfo.invalid).is_empty = false → RootPath info m →
      RootPath info i

/-- Well-formedness of the address table, maintained by all reachable manager
states: live parent links point below the table size at live slots, every
live slot's chain reaches a root device, and at most one live slot is a root
device. -/
def WFTable (info : List PortInfo) : Prop :=
  (∀ i, i < info.length → (info.getD i PortInfo.invalid).is_empty = false →
    ∀ pa, (info.getD i PortInfo.invalid).parent_addr = some pa → 0 < pa →
      pa - 1 < info.length ∧
        (info.getD (pa - 1) PortInfo.invalid).is_empty = false) ∧
  (∀ i, i < info.length → (info.getD i PortInfo.invalid).is_empty = false →
    RootPath info i) ∧
  (∀ i, i < info.length → ∀ j, j < info.length →
    (info.getD i PortInfo.invalid).parent_addr = some 0 →
    (info.getD j PortInfo.invalid).parent_addr = some 0 → i = j)

lemma parent_addr_live {p : PortInfo} {pa : Nat} (h : p.parent_addr = some pa) :
    p.is_empty = false := by
  unfold PortInfo.parent_addr at h
  split at h
  · cases h
  · rename_i hb
    exact Bool.not_eq_true _ ▸ (by simpa using hb)

lemma live_lt {info : List PortInfo} {j : Nat}
    (h : (info.getD j PortInfo.invalid).is_empty = false) : j < info.length := by
  by_contra hge
  push_neg at hge
  rw [List.getD_eq_default _ _ hge] at h
  exact absurd h (by decide)

lemma subtree_lt {info : List PortInfo} {idx j : Nat} (h : SubtreeOf info idx j)
    (hidx : idx < info.length) : j < info.length := by
  cases h with
  | base => exact hidx
  | step j m hl _ _ => exact live_lt hl

/-- If every edge of the graph stays on one side of a predicate, connected
indices agree on the predicate. -/
lemma Conn_closed {E : List (Nat × Nat)} {P : Nat → Prop}
    (hcl : ∀ e ∈ E, (P e.1 ↔ P e.2)) {a b : Nat} (h : Conn E a b) : P a ↔ P b := by
  induction h with
  | rel u v huv =>
    rcases huv with h1 | h1
    · exact hcl _ h1
    · exact (hcl _ h1).symm
  | refl u => exact Iff.rfl
  | symm _ _ _ ih => exact ih.symm
  | trans _ _ _ _ _ ih1 ih2 => exact ih1.trans ih2

lemma slotEdges_mem {info : List PortInfo} {l : List Nat} {e : Nat × Nat} :
    e ∈ slotEdges info l ↔ ∃ i ∈ l, (info.getD i PortInfo.invalid).is_empty = false ∧
      ∃ pa, (info.getD i PortInfo.invalid).parent_addr = some pa ∧ 0 < pa ∧
        e = (i, pa - 1) := by
  unfold slotEdges
  rw [List.mem_filterMap]
  constructor
  · rintro ⟨i, hi, hf⟩
    refine ⟨i, hi, ?_⟩
    split at hf
    · rename_i h1
      split at hf
      · rename_i pa hpar
        split at hf
        · rename_i h2
          exact ⟨by simpa using h1, pa, hpar, h2, (Option.some_inj.mp hf).symm⟩
        · cases hf
      · cases hf
    · cases hf
  · rintro ⟨i, hi, hlive, pa, hpa, hpos, he⟩
    refine ⟨i, hi, ?_⟩
    rw [if_pos (by rw [hlive]; rfl), hpa]
    show (if 0 < pa then some (i, pa - 1) else none) = some e
    rw [if_pos hpos, he]

lemma rootPath_top {info0 : List PortInfo}
    (hWTa : ∀ i, i < info0.length → (info0.getD i PortInfo.invalid).is_empty = false →
      ∀ pa, (info0.getD i PortInfo.invalid).parent_addr = some pa → 0 < pa →
        pa - 1 < info0.length ∧
          (info0.getD (pa - 1) PortInfo.invalid).is_empty = false) :
    ∀ i, RootPath info0 i → i < info0.length →
      ∃ r0, r0 < info0.length ∧
        (info0.getD r0 PortInfo.invalid).parent_addr = some 0 := by
  intro i h
  induction h with
  | base i hpa =>
    intro hin
    exact ⟨i, hin, hpa⟩
  | step i m hpa hlm hrp ih =>
    intro hin
    have hlivei : (info0.getD i PortInfo.invalid).is_empty = false := parent_addr_live hpa
    have hmn : m < info0.length := by
      have := (hWTa i hin hlivei (m + 1) hpa (by omega)).1
      omega
    exact ih hmn

/-- Each union edge built by `free_subtree` joins two slots on the same side
of the removed subtree: the removed slot `idx` builds no edge, a subtree
slot's parent is in the subtree, and a slot whose parent is in the subtree is
in the subtree. -/
lemma subtree_edge_closed {info0 : List PortInfo} {idx : Nat} :
    ∀ e ∈ slotEdges (info0.set idx PortInfo.invalid) (List.range info0.length),
      (SubtreeOf info0 idx e.1 ↔ SubtreeOf info0 idx e.2) := by
  intro e he
  obtain ⟨i, hi, hlive1, pa, hpa1, hpos, hee⟩ := slotEdges_mem.mp he
  have hii : i ≠ idx := by
    intro h
    rw [h, getD_set_invalid] at hlive1
    exact absurd hlive1 (by decide)
  have hsame : (info0.set idx PortInfo.invalid).getD i PortInfo.invalid =
      info0.getD i PortInfo.invalid := getD_set_ne (fun h => hii h.symm) _ _
  rw [hsame] at hlive1 hpa1
  subst hee
  show SubtreeOf info0 idx i ↔ SubtreeOf info0 idx (pa - 1)
  constructor
  · intro h
    cases h with
    | base => exact absurd rfl hii
    | step j m hl hp hs =>
      have : m + 1 = pa := by
        rw [hp] at hpa1
        exact Option.some_inj.mp hpa1
      rw [show pa - 1 = m from by omega]
      exact hs
  · intro h
    refine SubtreeOf.step i (pa - 1) hlive1 ?_ h
    rw [hpa1]
    congr 1
    omega

/-- A live slot of the post-removal table that is not in the removed subtree
is connected (by the union edges) to any surviving root-device slot. -/
lemma nonsubtree_conn {info0 : List PortInfo} {idx i0 : Nat}
    (hWT : WFTable info0) (hi0n : i0 < info0.length)
    (hl0 : ((info0.set idx PortInfo.invalid).getD i0 PortInfo.invalid).is_empty = false)
    (hp0 : ((info0.set idx PortInfo.invalid).getD i0 PortInfo.invalid).parent_addr =
      some 0) :
    ∀ j, RootPath info0 j → j < info0.length →
      ((info0.set idx PortInfo.invalid).getD j PortInfo.invalid).is_empty = false →
      ¬ SubtreeOf info0 idx j →
      Conn (slotEdges (info0.set idx PortInfo.invalid) (List.range info0.length)) j i0 := by
  have hi0idx : i0 ≠ idx := by
    intro h
    rw [h, getD_set_invalid] at hl0
    exact absurd hl0 (by decide)
  have h0same : (info0.set idx PortInfo.invalid).getD i0 PortInfo.invalid =
      info0.getD i0 PortInfo.invalid := getD_set_ne (fun h => hi0idx h.symm) _ _
  rw [h0same] at hl0 hp0
  intro j hrp
  induction hrp with
  | base j hpa =>
    intro hjn hlive1 _
    have hji0 : j = i0 := hWT.2.2 j hjn i0 hi0n hpa hp0
    rw [hji0]
    exact Conn.refl _ i0
  | step j m hpa hlm hrpm ih =>
    intro hjn hlive1 hnsub
    have hjidx : j ≠ idx := by
      intro h
      rw [h, getD_set_invalid] at hlive1
      exact absurd hlive1 (by decide)
    have hjsame : (info0.set idx PortInfo.invalid).getD j PortInfo.invalid =
        info0.getD j PortInfo.invalid := getD_set_ne (fun h => hjidx h.symm) _ _
    have hmidx : m ≠ idx := by
      intro h
      subst h
      exact hnsub (SubtreeOf.step j m (by rw [← hjsame]; exact hlive1) hpa
        SubtreeOf.base)
    have hmn : m < info0.length := by
      have := (hWT.1 j hjn (by rw [← hjsame]; exact hlive1) (m + 1) hpa (by omega)).1
      omega
    have hmsame : (info0.set idx PortInfo.invalid).getD m PortInfo.invalid =
        info0.getD m PortInfo.invalid := getD_set_ne (fun h => hmidx h.symm) _ _
    have hmlive1 : ((info0.set idx PortInfo.invalid).getD m PortInfo.invalid).is_empty =
        false := by
      rw [hmsame]
      exact hlm
    have hmnsub : ¬ SubtreeOf info0 idx m := by
      intro h
      exact hnsub (SubtreeOf.step j m (by rw [← hjsame]; exact hlive1) hpa h)
    have hconn_m := ih hmn hmlive1 hmnsub
    have hedge : (j, m) ∈ slotEdges (info0.set idx PortInfo.invalid)
        (List.range info0.length) := by
      refine slotEdges_mem.mpr ⟨j, List.mem_range.mpr hjn, ?_, m + 1, ?_, by omega, ?_⟩
      · rw [hjsame]
        exact parent_addr_live hpa
      · rw [hjsame]
        exact hpa
      · rfl
    exact (Conn.edge hedge).trans hconn_m

lemma scanFree_mask_sub (fuel root : Nat) :
    ∀ (l : List Nat) (parent : List Nat) (info : List PortInfo) (mask : Finset Nat)
      (a : Nat), a ∈ (scanFree fuel root parent info mask l).2.1 →
      a ∈ mask ∨ ∃ i ∈ l, a = i + 1 := by
  intro l
  induction l with
  | nil =>
    intro parent info mask a ha
    exact Or.inl ha
  | cons i rest ih =>
    intro parent info mask a ha
    have hunf : scanFree fuel root parent info mask (i :: rest) =
        if !(info.getD i PortInfo.invalid).is_empty then
          if (ufFind fuel parent i).2 ≠ root then
            scanFree fuel root (ufFind fuel parent i).1 (info.set i PortInfo.invalid)
              (insert (i + 1) mask) rest
          else scanFree fuel root (ufFind fuel parent i).1 info mask rest
        else scanFree fuel root parent info mask rest := rfl
    rw [hunf] at ha
    by_cases h1 : (!(info.getD i PortInfo.invalid).is_empty) = true
    · rw [if_pos h1] at ha
      by_cases h2 : (ufFind fuel parent i).2 ≠ root
      · rw [if_pos h2] at ha
        rcases ih _ _ _ a ha with hm | ⟨j, hj, he⟩
        · rcases Finset.mem_insert.mp hm with he | hm2
          · exact Or.inr ⟨i, List.mem_cons_self i rest, he⟩
          · exact Or.inl hm2
        · exact Or.inr ⟨j, List.mem_cons_of_mem i hj, he⟩
      · rw [if_neg h2] at ha
        rcases ih _ _ _ a ha with hm | ⟨j, hj, he⟩
        · exact Or.inl hm
        · exact Or.inr ⟨j, List.mem_cons_of_mem i hj, he⟩
    · rw [if_neg h1] at ha
      rcases ih _ _ _ a ha with hm | ⟨j, hj, he⟩
      · exact Or.inl hm
      · exact Or.inr ⟨j, List.mem_cons_of_mem i hj, he⟩

lemma free_subtree_eval (m : DeviceAddressManager) (q : PortInfo) (idx r : Nat)
    (hfi : m.find_index q = some idx)
    (hrc : (rootComponentSearch (m.info.set idx PortInfo.invalid) m.info.length
      (buildComponents (m.info.set idx PortInfo.invalid) m.info.length
        (List.range m.info.length, List.replicate m.info.length 0)
        (List.range m.info.length)).1 (List.range m.info.length)).1 = some r) :
    m.free_subtree q =
      ((scanFree m.info.length r
          (rootComponentSearch (m.info.set idx PortInfo.invalid) m.info.length
            (buildComponents (m.info.set idx PortInfo.invalid) m.info.length
              (List.range m.info.length, List.replicate m.info.length 0)
              (List.range m.info.length)).1 (List.range m.info.length)).2
          (m.info.set idx PortInfo.invalid) {idx + 1} (List.range m.info.length)).2.1,
        ⟨(scanFree m.info.length r
          (rootComponentSearch (m.info.set idx PortInfo.invalid) m.info.length
            (buildComponents (m.info.set idx PortInfo.invalid) m.info.length
              (List.range m.info.length, List.replicate m.info.length 0)
              (List.range m.info.length)).1 (List.range m.info.length)).2
          (m.info.set idx PortInfo.invalid) {idx + 1} (List.range m.info.length)).1⟩) := by
  rw [free_subtree_some m q idx hfi]
  simp only [hrc]

/-- **C1** For every reachable (well-formed) address-table state and every
node `N` stored at slot `idx` that is not itself a root device, `free_subtree`
returns a mask containing exactly the address of `N` together with the
addresses of all transitive descendants of `N` in the current parent forest,
and every slot outside that subtree keeps its `PortInfo` unchanged.  (The
claim is corrected: for a root device `N` — stored parent address 0 — the
root-component search finds no surviving root and no descendant is freed, see
the counterexample.) -/
theorem free_subtree_exact (m : DeviceAddressManager) (q : PortInfo) (idx : Nat)
    (hWT : WFTable m.info)
    (hfi : m.find_index q = some idx)
    (hlive : (m.info.getD idx PortInfo.invalid).is_empty = false)
    (hroot : (m.info.getD idx PortInfo.invalid).parent_addr ≠ some 0) :
    (∀ a, a ∈ (m.free_subtree q).1 ↔
      ∃ j, j < m.info.length ∧ SubtreeOf m.info idx j ∧ a = j + 1) ∧
    ∀ j, j < m.info.length → ¬ SubtreeOf m.info idx j →
      (m.free_subtree q).2.info.getD j PortInfo.invalid =
        m.info.getD j PortInfo.invalid := by
  have idxn : idx < m.info.length := live_lt hlive
  set I1 := m.info.set idx PortInfo.invalid with hI1def
  obtain ⟨hwstar, hlstar, hconn0⟩ := buildComponents_spec I1 m.info.length
    (List.range m.info.length) (List.range m.info.length)
    (List.replicate m.info.length 0) [] (WFp_range m.info.length)
    (List.length_range m.info.length) (fun i hi => List.mem_range.mp hi)
    (by
      intro i _ pa hl1 hp1 hpos
      have hii : i ≠ idx := by
        intro h
        rw [hI1def, h, getD_set_invalid] at hl1
        exact absurd hl1 (by decide)
      rw [hI1def, getD_set_ne (fun h => hii h.symm)] at hl1 hp1
      exact (hWT.1 i (live_lt hl1) hl1 pa hp1 hpos).1)
    (by
      intro a b _ _
      rw [sameRoot_range]
      constructor
      · intro h
        rw [h]
        exact Conn.refl [] b
      · exact Conn_nil)
  simp only [List.nil_append] at hconn0
  set PS := (buildComponents I1 m.info.length
    (List.range m.info.length, List.replicate m.info.length 0)
    (List.range m.info.length)).1 with hPSdef
  obtain ⟨r0, hr0n, hr0pa⟩ := rootPath_top hWT.1 idx (hWT.2.1 idx idxn hlive) idxn
  have hr0idx : r0 ≠ idx := by
    intro h
    rw [h] at hr0pa
    exact hroot hr0pa
  obtain ⟨i0, r, hi0mem, hi0live1, hi0pa1, hi0root, hrc1, hwrc, hlemap, hlrc2⟩ :=
    rootComponentSearch_spec I1 m.info.length (List.range m.info.length) PS
      hwstar hlstar (fun i hi => List.mem_range.mp hi)
      ⟨r0, List.mem_range.mpr hr0n,
        by rw [hI1def, getD_set_ne (fun h => hr0idx h.symm)]
           exact parent_addr_live hr0pa,
        by rw [hI1def, getD_set_ne (fun h => hr0idx h.symm)]
           exact hr0pa⟩
  have hi0n : i0 < m.info.length := List.mem_range.mp hi0mem
  set RC := rootComponentSearch I1 m.info.length PS (List.range m.info.length) with hRCdef
  obtain ⟨hslen, hout, hin⟩ := scanFree_exact m.info.length r PS I1 hwstar hlstar
    (List.range m.info.length) RC.2 I1 {idx + 1} hwrc hlrc2 hlemap
    (List.nodup_range m.info.length) (fun i hi => List.mem_range.mp hi)
    (fun i _ => rfl)
  have heval := free_subtree_eval m q idx r hfi hrc1
  have hi0idx : i0 ≠ idx := by
    intro h
    rw [hI1def, h, getD_set_invalid] at hi0live1
    exact absurd hi0live1 (by decide)
  have hi0pa0 : (m.info.getD i0 PortInfo.invalid).parent_addr = some 0 := by
    rw [hI1def, getD_set_ne (fun h => hi0idx h.symm)] at hi0pa1
    exact hi0pa1
  have hi0nsub : ¬ SubtreeOf m.info idx i0 := by
    intro hsub
    cases hsub with
    | base => exact hi0idx rfl
    | step j mm hl hp hs =>
      rw [hp] at hi0pa0
      exact absurd (Option.some_inj.mp hi0pa0) (by omega)
  have hfreed_iff : ∀ i, i < m.info.length →
      (I1.getD i PortInfo.invalid).is_empty = false →
      (freedSlot PS r I1 i ↔ SubtreeOf m.info idx i) := by
    intro i hiN hlive1
    have hiidx : i ≠ idx := by
      intro h
      rw [hI1def, h, getD_set_invalid] at hlive1
      exact absurd hlive1 (by decide)
    have hlive0 : (m.info.getD i PortInfo.invalid).is_empty = false := by
      rw [hI1def, getD_set_ne (fun h => hiidx h.symm)] at hlive1
      exact hlive1
    obtain ⟨ri, hri⟩ := hwstar.2 i (by rw [hlstar]; exact hiN)
    have h1 : sameRoot PS i i0 ↔ ri = r := sameRoot_iff_eq hri hi0root
    have h2 := hconn0 i i0 hiN hi0n
    constructor
    · rintro ⟨_, ri2, hri2, hner⟩
      have hner2 : ri ≠ r := by
        rw [← rootsTo_unique hri2 hri]
        exact hner
      by_contra hnsub
      have hc := nonsubtree_conn hWT hi0n hi0live1 hi0pa1 i
        (hWT.2.1 i hiN hlive0) hiN hlive1 hnsub
      exact hner2 (h1.mp (h2.mpr hc))
    · intro hsub
      refine ⟨hlive1, ri, hri, ?_⟩
      intro heq
      have hc := h2.mp (h1.mpr heq)
      exact hi0nsub ((Conn_closed subtree_edge_closed hc).mp hsub)
  have hidxnotfreed : ¬ freedSlot PS r I1 idx := by
    rintro ⟨hl, _⟩
    rw [hI1def, getD_set_invalid] at hl
    exact absurd hl (by decide)
  refine ⟨?_, ?_⟩
  · intro a
    constructor
    · intro ha
      rw [heval] at ha
      rcases scanFree_mask_sub m.info.length r (List.range m.info.length)
          RC.2 I1 {idx + 1} a ha with hm | ⟨i, hi, he⟩
      · exact ⟨idx, idxn, SubtreeOf.base, Finset.mem_singleton.mp hm⟩
      · by_cases hfs : freedSlot PS r I1 i
        · exact ⟨i, List.mem_range.mp hi, (hfreed_iff i (List.mem_range.mp hi)
            hfs.1).mp hfs, he⟩
        · have h3 := ((hin i hi).2 hfs).2
          have h4 : i + 1 = idx + 1 := Finset.mem_singleton.mp (h3.mp (he ▸ ha))
          exact ⟨idx, idxn, SubtreeOf.base, by omega⟩
    · rintro ⟨j, hjN, hsub, rfl⟩
      rw [heval]
      by_cases hji : j = idx
      · subst hji
        exact (((hin j (List.mem_range.mpr hjN)).2 hidxnotfreed).2).mpr
          (Finset.mem_singleton.mpr rfl)
      · have hlive1j : (I1.getD j PortInfo.invalid).is_empty = false := by
          cases hsub with
          | base => exact absurd rfl hji
          | step j2 mm hl hp hs =>
            rw [hI1def, getD_set_ne (fun h => hji h.symm)]
            exact hl
        exact ((hin j (List.mem_range.mpr hjN)).1
          ((hfreed_iff j hjN hlive1j).mpr hsub)).2
  · intro j hjN hnsub
    have hji : j ≠ idx := fun h => hnsub (by rw [h]; exact SubtreeOf.base)
    have hnf : ¬ freedSlot PS r I1 j :=
      fun hf => hnsub ((hfreed_iff j hjN hf.1).mp hf)
    have h4 := ((hin j (List.mem_range.mpr hjN)).2 hnf).1
    rw [heval]
    exact h4.trans (by rw [hI1def]; exact getD_set_ne (fun h => hji h.symm) _ _)

/-- Counterexample to C1 as stated: a reachable two-slot table (root device at
address 1, its child at address 2, built by two allocations) where the freed
node `N` is the root device itself.  Slot 1 (address 2) is a transitive
descendant of `N`, yet `free_subtree` returns the mask `{1}`: after removing
the root there is no surviving slot with parent address 0, the root-component
search fails, and no descendant is freed. -/
theorem free_subtree_exact_cex :
    (((DeviceAddressManager.new 2).alloc_device_address 8
        (DevInfo.root_device UsbSpeed.HighSpeed)).map
      (fun r => ((r.2).alloc_device_address 8
        (DevInfo.new 1 1 none UsbSpeed.FullSpeed)).map (fun s => s.2))) =
      some (some (⟨[⟨0x80, 0⟩, ⟨0x81, 1⟩]⟩ : DeviceAddressManager)) ∧
    SubtreeOf [⟨0x80, 0⟩, ⟨0x81, 1⟩] 0 1 ∧
    (DeviceAddressManager.free_subtree ⟨[⟨0x80, 0⟩, ⟨0x81, 1⟩]⟩ ⟨0x80, 0⟩).1 = {1} ∧
    (2 : Nat) ∉
      (DeviceAddressManager.free_subtree ⟨[⟨0x80, 0⟩, ⟨0x81, 1⟩]⟩ ⟨0x80, 0⟩).1 := by
  refine ⟨by decide, ?_, by decide, by decide⟩
  exact SubtreeOf.step 1 0 (by decide) (by decide) SubtreeOf.base

/-- Witness for `free_subtree_exact`: the same reachable two-slot table, with
`N` the child device (slot 1, stored parent address 1, not a root device);
all hypotheses hold and the theorem applies. -/
theorem free_subtree_exact_witness :
    WFTable [(⟨0x80, 0⟩ : PortInfo), ⟨0x81, 1⟩] ∧
    DeviceAddressManager.find_index ⟨[⟨0x80, 0⟩, ⟨0x81, 1⟩]⟩ ⟨0x81, 1⟩ = some 1 ∧
    ((∀ a, a ∈ (DeviceAddressManager.free_subtree ⟨[⟨0x80, 0⟩, ⟨0x81, 1⟩]⟩ ⟨0x81, 1⟩).1 ↔
        ∃ j, j < 2 ∧ SubtreeOf [⟨0x80, 0⟩, ⟨0x81, 1⟩] 1 j ∧ a = j + 1) ∧
      ∀ j, j < 2 → ¬ SubtreeOf [⟨0x80, 0⟩, ⟨0x81, 1⟩] 1 j →
        (DeviceAddressManager.free_subtree
            ⟨[⟨0x80, 0⟩, ⟨0x81, 1⟩]⟩ ⟨0x81, 1⟩).2.info.getD j PortInfo.invalid =
          [(⟨0x80, 0⟩ : PortInfo), ⟨0x81, 1⟩].getD j PortInfo.invalid) := by
  have hWT : WFTable [(⟨0x80, 0⟩ : PortInfo), ⟨0x81, 1⟩] := by
    refine ⟨by decide, ?_, by decide⟩
    intro i hi hlivei
    have hi2 : i < 2 := by simpa using hi
    interval_cases i
    · exact RootPath.base 0 (by decide)
    · exact RootPath.step 1 0 (by decide) (by decide) (RootPath.base 0 (by decide))
  exact ⟨hWT, by decide, free_subtree_exact ⟨[⟨0x80, 0⟩, ⟨0x81, 1⟩]⟩ ⟨0x81, 1⟩ 1 hWT
    (by decide) (by decide) (by decide)⟩

end UsbHost
